import Mathlib

/-!
Verification of the SVRF-to-ICV translator's parsing and rule-classification
pipeline.  The development shallowly embeds, faithfully to the Python source:

* the ordered rule classifier of final_enhanced_translator.py
  (parse_rule_content, lines 151-283) together with the enclosure-operator
  normalization of translate_rule (line 342);
* the line-based rule-block scanner of final_enhanced_translator.py
  (parse_rule_block, lines 111-149) and simple_svrf_parser.py
  (parse_drc_rule, lines 110-152);
* the layer-expression rewriter of svrf_to_icv_translator.py
  (translate_layer_expression, lines 83-93);
* the lexer of svrf_drc_parser.py (SVRFLexer, lines 97-275);
* the token-based structural parser of svrf_drc_parser.py
  (SVRFParser, lines 277-521), with every while-loop given explicit fuel
  (a loop that exhausts its fuel models a non-terminating Python loop).

Python regular expressions are embedded as deterministic maximal-munch
scanners.  This is exact for every pattern occurring in the source: in each
of them the character classes of neighbouring greedy pieces are disjoint and
every literal begins with a character outside the class of the preceding
greedy piece, so backtracking can never produce a match that maximal munch
misses.  Python floats are idealized as rationals; float() applied to a
capture of the regex class [\d.]+ succeeds exactly when the capture has at
least one digit and at most one dot.
-/

/-- Character class of the regex class \w (ASCII word characters). -/
def isWordChar (c : Char) : Bool := c.isAlphanum || c == '_'

/-- Character class of the regex class \s. -/
def isSpaceChar (c : Char) : Bool :=
  c == ' ' || c == '\t' || c == '\n' || c == '\r' || c == '\x0b' || c == '\x0c'

/-- Character class of the regex class [\d.]. -/
def isNumChar (c : Char) : Bool := c.isDigit || c == '.'

/-- Character class of the regex class [<>=]. -/
def isCmpChar (c : Char) : Bool := c == '<' || c == '>' || c == '='

/-- Strip an exact literal from the front of the input (a regex literal). -/
def lit : List Char → List Char → Option (List Char)
  | [], cs => some cs
  | _ :: _, [] => none
  | p :: ps, c :: cs => if c = p then lit ps cs else none

/-- Greedy one-or-more run of a character class (regex X+): the captured
run and the rest. -/
def plusRun (p : Char → Bool) (cs : List Char) : Option (List Char × List Char) :=
  match cs.takeWhile p with
  | [] => none
  | r => some (r, cs.dropWhile p)

/-- Greedy zero-or-more run of a character class (regex X*): the rest. -/
def starRun (p : Char → Bool) (cs : List Char) : List Char := cs.dropWhile p

/-- Ordered alternation of string literals (regex a|b|c): the matched
alternative and the rest. -/
def litAlt : List String → List Char → Option (String × List Char)
  | [], _ => none
  | a :: more, cs =>
    match lit a.toList cs with
    | some r => some (a, r)
    | none => litAlt more cs

/-- re.search semantics: try the anchored pattern at every start position,
leftmost position first. -/
def reSearch (pat : List Char → Option α) : List Char → Option α
  | [] => pat []
  | c :: t =>
    match pat (c :: t) with
    | some r => some r
    | none => reSearch pat t

/-- Python substring containment (the expression pat in content). -/
def containsSub (hay pat : String) : Bool :=
  (reSearch (lit pat.toList) hay.toList).isSome

/-- Value of a digit string. -/
def digitsToNat (cs : List Char) : Nat :=
  cs.foldl (fun n c => n * 10 + (c.toNat - 48)) 0

/-- Python float() on a capture of the regex class [\d.]+, idealized to a
rational: defined exactly when the capture has at least one digit and at
most one dot (float(".") and float("1.2.3") raise ValueError).  The value
of d1...dk.e1...em is the mantissa d1...dke1...em over 10^m. -/
def pyFloat (s : String) : Option ℚ :=
  let cs := s.toList
  if cs.all isNumChar ∧ cs.any Char.isDigit ∧ cs.count '.' ≤ 1 then
    let ip := cs.takeWhile (fun c => c ≠ '.')
    let fp := (cs.dropWhile (fun c => c ≠ '.')).drop 1
    some (mkRat (digitsToNat (ip ++ fp)) (10 ^ fp.length))
  else none

/-- Anchored matcher for the enclosure pattern of
final_enhanced_translator.py line 172:
(\w+)\s+NOT\s+INSIDE\s+(\w+)\s+BY\s*(>=|==|<=)\s*([\d.]+). -/
def tryEncl (cs : List Char) : Option (String × String × String × String) := do
  let (w1, r) ← plusRun isWordChar cs
  let (_, r) ← plusRun isSpaceChar r
  let r ← lit "NOT".toList r
  let (_, r) ← plusRun isSpaceChar r
  let r ← lit "INSIDE".toList r
  let (_, r) ← plusRun isSpaceChar r
  let (w2, r) ← plusRun isWordChar r
  let (_, r) ← plusRun isSpaceChar r
  let r ← lit "BY".toList r
  let r := starRun isSpaceChar r
  let (op, r) ← litAlt [">=", "==", "<="] r
  let r := starRun isSpaceChar r
  let (num, _) ← plusRun isNumChar r
  return (w1.asString, w2.asString, op, num.asString)

/-- re.search for the enclosure pattern. -/
def matchEncl (content : String) : Option (String × String × String × String) :=
  reSearch tryEncl content.toList

/-- Anchored matcher for the antenna pattern of line 182:
ANTENNA\s+(\w+)\s+(\w+)\s+MAX\s+RATIO\s+([\d.]+). -/
def tryAntenna (cs : List Char) : Option (String × String × String) := do
  let r ← lit "ANTENNA".toList cs
  let (_, r) ← plusRun isSpaceChar r
  let (w1, r) ← plusRun isWordChar r
  let (_, r) ← plusRun isSpaceChar r
  let (w2, r) ← plusRun isWordChar r
  let (_, r) ← plusRun isSpaceChar r
  let r ← lit "MAX".toList r
  let (_, r) ← plusRun isSpaceChar r
  let r ← lit "RATIO".toList r
  let (_, r) ← plusRun isSpaceChar r
  let (num, _) ← plusRun isNumChar r
  return (w1.asString, w2.asString, num.asString)

/-- re.search for the antenna pattern. -/
def matchAntenna (content : String) : Option (String × String × String) :=
  reSearch tryAntenna content.toList

/-- Anchored matcher for the rectangle pattern of line 195:
RECTANGLE\s+(\w+)\s+LENGTH\s*([<>=]+)\s*([\d.]+)\s+WIDTH\s*([<>=]+)\s*([\d.]+). -/
def tryRect (cs : List Char) :
    Option (String × String × String × String × String) := do
  let r ← lit "RECTANGLE".toList cs
  let (_, r) ← plusRun isSpaceChar r
  let (w, r) ← plusRun isWordChar r
  let (_, r) ← plusRun isSpaceChar r
  let r ← lit "LENGTH".toList r
  let r := starRun isSpaceChar r
  let (lop, r) ← plusRun isCmpChar r
  let r := starRun isSpaceChar r
  let (lval, r) ← plusRun isNumChar r
  let (_, r) ← plusRun isSpaceChar r
  let r ← lit "WIDTH".toList r
  let r := starRun isSpaceChar r
  let (wop, r) ← plusRun isCmpChar r
  let r := starRun isSpaceChar r
  let (wval, _) ← plusRun isNumChar r
  return (w.asString, lop.asString, lval.asString, wop.asString, wval.asString)

/-- re.search for the rectangle pattern. -/
def matchRect (content : String) :
    Option (String × String × String × String × String) :=
  reSearch tryRect content.toList

/-- Anchored matcher for the multi-patterning pattern of line 206:
(EXTERNAL1)\s+(\w+)\s*(<|>|==)\s*([\d.]+)\s+SAME_MASK. -/
def trySameMask (cs : List Char) : Option (String × String × String) := do
  let r ← lit "EXTERNAL1".toList cs
  let (_, r) ← plusRun isSpaceChar r
  let (w, r) ← plusRun isWordChar r
  let r := starRun isSpaceChar r
  let (op, r) ← litAlt ["<", ">", "=="] r
  let r := starRun isSpaceChar r
  let (num, r) ← plusRun isNumChar r
  let (_, r) ← plusRun isSpaceChar r
  let _ ← lit "SAME_MASK".toList r
  return (w.asString, op, num.asString)

/-- re.search for the multi-patterning pattern. -/
def matchSameMask (content : String) : Option (String × String × String) :=
  reSearch trySameMask content.toList

/-- Anchored matcher for the inter-layer spacing pattern of line 217:
EXTERNAL\s+(\w+)\s+(\w+)\s*(<|>|==)\s*([\d.]+). -/
def tryInter (cs : List Char) : Option (String × String × String × String) := do
  let r ← lit "EXTERNAL".toList cs
  let (_, r) ← plusRun isSpaceChar r
  let (w1, r) ← plusRun isWordChar r
  let (_, r) ← plusRun isSpaceChar r
  let (w2, r) ← plusRun isWordChar r
  let r := starRun isSpaceChar r
  let (op, r) ← litAlt ["<", ">", "=="] r
  let r := starRun isSpaceChar r
  let (num, _) ← plusRun isNumChar r
  return (w1.asString, w2.asString, op, num.asString)

/-- re.search for the inter-layer spacing pattern. -/
def matchInter (content : String) : Option (String × String × String × String) :=
  reSearch tryInter content.toList

/-- Anchored matcher for a single-keyword clause
KW\s+(\w+)\s*(<|>|==)\s*([\d.]+) (lines 226, 246, 255, 264). -/
def trySingle (kw : String) (cs : List Char) : Option (String × String × String) := do
  let r ← lit kw.toList cs
  let (_, r) ← plusRun isSpaceChar r
  let (w, r) ← plusRun isWordChar r
  let r := starRun isSpaceChar r
  let (op, r) ← litAlt ["<", ">", "=="] r
  let r := starRun isSpaceChar r
  let (num, _) ← plusRun isNumChar r
  return (w.asString, op, num.asString)

/-- re.search for the single-layer spacing pattern EXTERNAL1 (line 226). -/
def matchExt1 (content : String) : Option (String × String × String) :=
  reSearch (trySingle "EXTERNAL1") content.toList

/-- re.search for the area pattern AREA (line 246). -/
def matchArea (content : String) : Option (String × String × String) :=
  reSearch (trySingle "AREA") content.toList

/-- re.search for the length pattern INTERNAL2 (line 255). -/
def matchInt2 (content : String) : Option (String × String × String) :=
  reSearch (trySingle "INTERNAL2") content.toList

/-- re.search for the width pattern INTERNAL1 (line 264). -/
def matchInt1 (content : String) : Option (String × String × String) :=
  reSearch (trySingle "INTERNAL1") content.toList

/-- Anchored matcher for the density pattern of line 236:
DENSITY\s+(\w+)\s+WINDOW\s+([\d.]+)\s+([\d.]+)\s*(<|>|==)\s*([\d.]+). -/
def tryDensity (cs : List Char) :
    Option (String × String × String × String × String) := do
  let r ← lit "DENSITY".toList cs
  let (_, r) ← plusRun isSpaceChar r
  let (w, r) ← plusRun isWordChar r
  let (_, r) ← plusRun isSpaceChar r
  let r ← lit "WINDOW".toList r
  let (_, r) ← plusRun isSpaceChar r
  let (n1, r) ← plusRun isNumChar r
  let (_, r) ← plusRun isSpaceChar r
  let (n2, r) ← plusRun isNumChar r
  let r := starRun isSpaceChar r
  let (op, r) ← litAlt ["<", ">", "=="] r
  let r := starRun isSpaceChar r
  let (num, _) ← plusRun isNumChar r
  return (w.asString, n1.asString, n2.asString, op, num.asString)

/-- re.search for the density pattern. -/
def matchDensity (content : String) :
    Option (String × String × String × String × String) :=
  reSearch tryDensity content.toList

/-- Anchored matcher for the description annotation of line 156:
@\s*"([^"]+)". -/
def tryDesc (cs : List Char) : Option String := do
  let r ← lit "@".toList cs
  let r := starRun isSpaceChar r
  let r ← lit "\"".toList r
  let (d, r) ← plusRun (fun c => c != '"') r
  let _ ← lit "\"".toList r
  return d.asString

/-- Description extraction of parse_rule_content lines 154-158: the first
@ "..." annotation anywhere in the content, or the empty string. -/
def extractDesc (content : String) : String :=
  match reSearch tryDesc content.toList with
  | some d => d
  | none => ""

/-- The DRCRule record of final_enhanced_translator.py (dataclass, lines
20-31).  value is the idealized float; antenna_params collapses the Python
dict to its (gate_layer, max_ratio) content; the Python convention of
storing None instead of an empty extra_params list is modelled by []. -/
structure DRCRule where
  name : String
  description : String
  rule_type : String
  layer : String
  operator : String
  value : ℚ
  extra_params : List String
  second_layer : Option String
  antenna_params : Option (String × ℚ)
deriving DecidableEq

/-- The record produced when no classification pattern fires: the
initialization values of parse_rule_content lines 160-167. -/
def unknownRule (rule_name description : String) : DRCRule :=
  ⟨rule_name, description, "unknown", "", "", 0, [], none, none⟩

/-- FinalEnhancedTranslator.parse_rule_content (lines 151-283): the ordered
classifier chain.  Returns none exactly when the Python code raises
(float() on an invalid capture), in which case no rule is appended. -/
def parse_rule_content (rule_name content : String) : Option DRCRule :=
  let description := extractDesc content
  match matchEncl content with
  | some (l1, l2, op, num) =>
    (pyFloat num).map fun v =>
      ⟨rule_name, description, "enclosure", l1, op, v, [], some l2, none⟩
  | none =>
    if containsSub content "ANTENNA" && containsSub content "MAX RATIO" then
      match matchAntenna content with
      | some (m, g, num) =>
        (pyFloat num).map fun v =>
          ⟨rule_name, description, "antenna", m, "MAX_RATIO", v, [], none, some (g, v)⟩
      | none => some (unknownRule rule_name description)
    else if containsSub content "RECTANGLE" then
      match matchRect content with
      | some (lay, lop, lval, wop, wval) =>
        some ⟨rule_name, description, "pattern_matching", lay, "RECTANGLE", 0,
          ["LENGTH" ++ lop ++ lval, "WIDTH" ++ wop ++ wval], none, none⟩
      | none => some (unknownRule rule_name description)
    else if containsSub content "SAME_MASK" then
      match matchSameMask content with
      | some (lay, op, num) =>
        (pyFloat num).map fun v =>
          ⟨rule_name, description, "multi_patterning", lay, op, v, ["SAME_MASK"], none, none⟩
      | none => some (unknownRule rule_name description)
    else if containsSub content "EXTERNAL" then
      match matchInter content with
      | some (l1, l2, op, num) =>
        (pyFloat num).map fun v =>
          ⟨rule_name, description, "external", l1, op, v, [], some l2, none⟩
      | none =>
        match matchExt1 content with
        | some (lay, op, num) =>
          (pyFloat num).map fun v =>
            ⟨rule_name, description, "external1", lay, op, v, [], none, none⟩
        | none => some (unknownRule rule_name description)
    else if containsSub content "DENSITY" && containsSub content "WINDOW" then
      match matchDensity content with
      | some (lay, n1, n2, op, num) =>
        (pyFloat num).map fun v =>
          ⟨rule_name, description, "density", lay, op, v, [n1, n2], none, none⟩
      | none => some (unknownRule rule_name description)
    else if containsSub content "AREA" then
      match matchArea content with
      | some (lay, op, num) =>
        (pyFloat num).map fun v =>
          ⟨rule_name, description, "area", lay, op, v, [], none, none⟩
      | none => some (unknownRule rule_name description)
    else if containsSub content "INTERNAL2" then
      match matchInt2 content with
      | some (lay, op, num) =>
        (pyFloat num).map fun v =>
          ⟨rule_name, description, "internal2", lay, op, v, [], none, none⟩
      | none => some (unknownRule rule_name description)
    else if containsSub content "INTERNAL1" then
      match matchInt1 content with
      | some (lay, op, num) =>
        (pyFloat num).map fun v =>
          ⟨rule_name, description, "internal1", lay, op, v, [], none, none⟩
      | none => some (unknownRule rule_name description)
    else some (unknownRule rule_name description)

/-- The self.rules.append of parse_rule_content line 272: the rule list
after classifying one block, or none when the classification raised. -/
def addRule (rules : List DRCRule) (rule_name content : String) :
    Option (List DRCRule) :=
  (parse_rule_content rule_name content).map (fun r => rules ++ [r])

/-- Whether some matcher of the executed elif chain fires on the content
(the condition under which parse_rule_content leaves the unknown state). -/
def firesB (content : String) : Bool :=
  if (matchEncl content).isSome then true
  else if containsSub content "ANTENNA" && containsSub content "MAX RATIO" then
    (matchAntenna content).isSome
  else if containsSub content "RECTANGLE" then (matchRect content).isSome
  else if containsSub content "SAME_MASK" then (matchSameMask content).isSome
  else if containsSub content "EXTERNAL" then
    (matchInter content).isSome || (matchExt1 content).isSome
  else if containsSub content "DENSITY" && containsSub content "WINDOW" then
    (matchDensity content).isSome
  else if containsSub content "AREA" then (matchArea content).isSome
  else if containsSub content "INTERNAL2" then (matchInt2 content).isSome
  else if containsSub content "INTERNAL1" then (matchInt1 content).isSome
  else false

/-- The ICV operator chosen by translate_rule for enclosure rules
(final_enhanced_translator.py line 342): >= if the SVRF operator was >= or
==, otherwise the SVRF operator itself. -/
def icv_enclosure_operator (op : String) : String :=
  if op = ">=" ∨ op = "==" then ">=" else op

set_option maxHeartbeats 2000000 in
/-- Characterization of the classifier chain: a raise implies a fired
matcher; no fired matcher yields the unknown record; an appended record
preserves name and description, has empty fields when unknown, and is
never the width category when the content contains RECTANGLE. -/
lemma parse_rule_content_master (name content : String) :
    (parse_rule_content name content = none → firesB content = true) ∧
    (firesB content = false →
      parse_rule_content name content = some (unknownRule name (extractDesc content))) ∧
    (∀ r, parse_rule_content name content = some r →
      r.name = name ∧ r.description = extractDesc content ∧
      (r.rule_type = "unknown" →
        r.layer = "" ∧ r.operator = "" ∧ r.value = 0 ∧ r.second_layer = none) ∧
      (containsSub content "RECTANGLE" = true → r.rule_type ≠ "internal1")) := by
  unfold parse_rule_content firesB
  repeat' split
  all_goals simp_all [unknownRule]

/-- The enclosure branch (highest priority): a successful enclosure match
with a convertible number yields the enclosure record. -/
lemma parse_rule_content_encl_eq (name content l1 l2 op num : String) (v : ℚ)
    (hm : matchEncl content = some (l1, l2, op, num))
    (hv : pyFloat num = some v) :
    parse_rule_content name content =
      some ⟨name, extractDesc content, "enclosure", l1, op, v, [], some l2, none⟩ := by
  unfold parse_rule_content
  simp [hm, hv]

/-- The rectangle branch: when neither the enclosure nor the antenna
branch captures the content, a successful rectangle match yields the
pattern-matching record. -/
lemma parse_rule_content_rect_eq (name content lay lop lval wop wval : String)
    (hE : matchEncl content = none)
    (hA : (containsSub content "ANTENNA" && containsSub content "MAX RATIO") = false)
    (hg : matchRect content = some (lay, lop, lval, wop, wval))
    (hr : containsSub content "RECTANGLE" = true) :
    parse_rule_content name content =
      some ⟨name, extractDesc content, "pattern_matching", lay, "RECTANGLE", 0,
        ["LENGTH" ++ lop ++ lval, "WIDTH" ++ wop ++ wval], none, none⟩ := by
  unfold parse_rule_content
  simp [hE, hA, hg, hr]

/-- C1 counterexample: a content string containing both a RECTANGLE pattern
clause and an INTERNAL1 width clause, for which the classifier nevertheless
assigns the enclosure category (the enclosure matcher has higher priority
than the rectangle matcher), not PatternRectangle as the claim states. -/
theorem c1_rect_width_precedence_cex :
    (matchRect "VIA NOT INSIDE M1 BY >= 0.1 RECTANGLE M2 LENGTH < 1.0 WIDTH < 2.0 INTERNAL1 M1 < 0.5").isSome = true ∧
    (matchInt1 "VIA NOT INSIDE M1 BY >= 0.1 RECTANGLE M2 LENGTH < 1.0 WIDTH < 2.0 INTERNAL1 M1 < 0.5").isSome = true ∧
    (parse_rule_content "RECT_RULE" "VIA NOT INSIDE M1 BY >= 0.1 RECTANGLE M2 LENGTH < 1.0 WIDTH < 2.0 INTERNAL1 M1 < 0.5").map DRCRule.rule_type = some "enclosure" ∧
    (some "enclosure" : Option String) ≠ some "pattern_matching" := by decide

/-- C1 (amended): for every content string containing RECTANGLE, the
classifier never assigns the width category (internal1) — the rectangle
branch precedes the width branch — and it assigns the pattern-matching
category whenever the rectangle pattern matches and no higher-priority
matcher (enclosure, antenna) captures the content first. -/
theorem c1_rect_width_precedence_amended (name content : String)
    (hr : containsSub content "RECTANGLE" = true) :
    (∀ r, parse_rule_content name content = some r → r.rule_type ≠ "internal1") ∧
    (matchEncl content = none →
      (containsSub content "ANTENNA" && containsSub content "MAX RATIO") = false →
      ∀ lay lop lval wop wval, matchRect content = some (lay, lop, lval, wop, wval) →
      (parse_rule_content name content).map DRCRule.rule_type = some "pattern_matching") := by
  refine ⟨fun r h => (((parse_rule_content_master name content).2.2 r h).2.2.2) hr, ?_⟩
  intro hE hA lay lop lval wop wval hg
  rw [parse_rule_content_rect_eq name content lay lop lval wop wval hE hA hg hr]
  rfl

/-- C1 witness: a body with both a RECTANGLE clause and an INTERNAL1 width
clause (and nothing of higher priority) classifies as pattern matching. -/
theorem c1_rect_width_precedence_amended_witness :
    (parse_rule_content "R" "RECTANGLE M2 LENGTH < 1.0 WIDTH < 2.0 INTERNAL1 M1 < 0.5").map
      DRCRule.rule_type = some "pattern_matching" :=
  (c1_rect_width_precedence_amended "R" _ (by decide)).2 (by decide) (by decide)
    "M2" "<" "1.0" "<" "2.0" (by decide)

/-- C2 counterexample: on content INTERNAL1 M1 < . the width matcher fires
(the regex class [\d.]+ accepts a lone dot) but float(".") raises
ValueError, so classification raises and appends no rule record,
contradicting the claim that it always appends exactly one and never
raises. -/
theorem c2_classify_total_cex :
    (matchInt1 "INTERNAL1 M1 < .").isSome = true ∧
    parse_rule_content "R1" "INTERNAL1 M1 < ." = none ∧
    addRule [] "R1" "INTERNAL1 M1 < ." = none := by decide

/-- C2 (amended): classification can raise only when a matcher has fired
(on an invalid numeric capture); when no matcher fires it appends exactly
one record, the unknown record with empty layer, empty operator and
threshold 0, and every appended record preserves the rule name and the
extracted description unchanged. -/
theorem c2_classify_total_amended (name content : String) (rules : List DRCRule) :
    (parse_rule_content name content = none → firesB content = true) ∧
    (firesB content = false →
      addRule rules name content = some (rules ++ [unknownRule name (extractDesc content)])) ∧
    (∀ r, parse_rule_content name content = some r →
      addRule rules name content = some (rules ++ [r]) ∧
      r.name = name ∧ r.description = extractDesc content ∧
      (r.rule_type = "unknown" →
        r.layer = "" ∧ r.operator = "" ∧ r.value = 0 ∧ r.second_layer = none)) := by
  obtain ⟨h1, h2, h3⟩ := parse_rule_content_master name content
  refine ⟨h1, fun hf => ?_, fun r hr => ⟨?_, h3 r hr |>.1, h3 r hr |>.2.1, h3 r hr |>.2.2.1⟩⟩
  · unfold addRule; rw [h2 hf]; rfl
  · unfold addRule; rw [hr]; rfl

/-- C2 witness: a width rule body appends exactly its one classified
record. -/
theorem c2_classify_total_amended_witness :
    addRule [] "W1" "W1 \x7b INTERNAL1 M1 < 0.1 \x7d" =
      some [⟨"W1", "", "internal1", "M1", "<", mkRat 1 10, [], none, none⟩] :=
  (((c2_classify_total_amended "W1" "W1 \x7b INTERNAL1 M1 < 0.1 \x7d" []).2.2
    ⟨"W1", "", "internal1", "M1", "<", mkRat 1 10, [], none, none⟩ (by decide)).1)

/-- C4: every content on which the enclosure pattern LAYER1 NOT INSIDE
LAYER2 BY op number matches classifies as enclosure with primary layer
LAYER1, secondary layer LAYER2 and the number as threshold; translate_rule
normalizes the operator so that == becomes >=; and the spec example
ENCL_RULE { VIA1 NOT INSIDE M1 BY >= 0.05 } yields enclosure, VIA1, M1,
operator >= and threshold 0.05 = 1/20. -/
theorem c4_enclosure_classification (name content l1 l2 op num : String) (v : ℚ)
    (hm : matchEncl content = some (l1, l2, op, num))
    (hv : pyFloat num = some v) :
    parse_rule_content name content =
      some ⟨name, extractDesc content, "enclosure", l1, op, v, [], some l2, none⟩ ∧
    (op = ">=" ∨ op = "==" → icv_enclosure_operator op = ">=") ∧
    parse_rule_content "ENCL_RULE" "ENCL_RULE \x7b VIA1 NOT INSIDE M1 BY >= 0.05 \x7d" =
      some ⟨"ENCL_RULE", "", "enclosure", "VIA1", ">=", mkRat 5 100, [], some "M1", none⟩ ∧
    (mkRat 5 100 : ℚ) = 1/20 := by
  refine ⟨parse_rule_content_encl_eq name content l1 l2 op num v hm hv, ?_, by decide, ?_⟩
  · intro h; unfold icv_enclosure_operator; rw [if_pos h]
  · rw [Rat.mkRat_eq_div]; norm_num

/-- C4 witness: the spec example evaluated through the classifier. -/
theorem c4_enclosure_classification_witness :
    parse_rule_content "ENCL_RULE" "ENCL_RULE \x7b VIA1 NOT INSIDE M1 BY >= 0.05 \x7d" =
      some ⟨"ENCL_RULE", "", "enclosure", "VIA1", ">=", mkRat 5 100, [], some "M1", none⟩ :=
  (c4_enclosure_classification "ENCL_RULE" "ENCL_RULE \x7b VIA1 NOT INSIDE M1 BY >= 0.05 \x7d"
    "VIA1" "M1" ">=" "0.05" (mkRat 5 100) (by decide) (by decide)).1
/-- Python str.strip(): remove leading and trailing whitespace. -/
def pyStrip (s : String) : String :=
  ((s.toList.dropWhile isSpaceChar).reverse.dropWhile isSpaceChar).reverse.asString

/-- Python line.count(c). -/
def countChar (c : Char) (s : String) : Nat := s.toList.count c

/-- Per-line brace balance contribution of the scanner loop:
open-brace count minus close-brace count of the stripped line. -/
def lineDelta (l : String) : Int :=
  (countChar '\x7b' (pyStrip l) : Int) - (countChar '\x7d' (pyStrip l) : Int)

/-- Whether a stripped line contains at least one open brace (the
found_opening_brace trigger of the scanner loop). -/
def hasOpenBrace (l : String) : Bool :=
  decide (0 < countChar '\x7b' (pyStrip l))

/-- The rule-block scanning loop of parse_rule_block
(final_enhanced_translator.py lines 122-143, identical in
simple_svrf_parser.py parse_drc_rule lines 123-146): returns the offset,
from the block's first line, of the line at which the loop breaks, or the
number of remaining lines when the block never closes. -/
def scanRuleBlock (found : Bool) (bal : Int) : List String → Nat
  | [] => 0
  | l :: rest =>
    if (found || hasOpenBrace l) = true ∧ bal + lineDelta l = 0 then 0
    else 1 + scanRuleBlock (found || hasOpenBrace l) (bal + lineDelta l) rest

/-- Cumulative per-line brace balance of a prefix of lines. -/
def cumDelta (ls : List String) : Int := (ls.map lineDelta).sum

/-- The code's block-ending condition at line index j: some line up to j
contains an open brace, and the cumulative balance over lines 0..j is
zero.  Braces are counted as raw characters of the line, so braces inside
quoted strings and comments count exactly like structural braces. -/
def blockCond (ls : List String) (j : Nat) : Prop :=
  (ls.take (j+1)).any hasOpenBrace = true ∧ cumDelta (ls.take (j+1)) = 0

/-- blockCond generalized over the loop state. -/
def blockCondGen (found : Bool) (bal : Int) (ls : List String) (j : Nat) : Prop :=
  (found || (ls.take (j+1)).any hasOpenBrace) = true ∧
    bal + cumDelta (ls.take (j+1)) = 0

/-- The claim's block-ending condition read literally: the first line
index at which the cumulative per-line balance returns to zero after
having been positive on some earlier prefix; none when no such line
exists. -/
def blockEndClaimed (ls : List String) : Option Nat :=
  (List.range ls.length).find? fun j =>
    decide (cumDelta (ls.take (j+1)) = 0) &&
      ((List.range (j+1)).any fun i => decide (0 < cumDelta (ls.take (i+1))))

lemma scanRuleBlock_cons (found : Bool) (bal : Int) (l : String) (rest : List String) :
    scanRuleBlock found bal (l :: rest) =
      if (found || hasOpenBrace l) = true ∧ bal + lineDelta l = 0 then 0
      else 1 + scanRuleBlock (found || hasOpenBrace l) (bal + lineDelta l) rest := rfl

lemma blockCondGen_zero (found : Bool) (bal : Int) (l : String) (rest : List String) :
    blockCondGen found bal (l :: rest) 0 ↔
      ((found || hasOpenBrace l) = true ∧ bal + lineDelta l = 0) := by
  simp [blockCondGen, cumDelta]

lemma blockCondGen_succ (found : Bool) (bal : Int) (l : String) (rest : List String) (j : Nat) :
    blockCondGen found bal (l :: rest) (j+1) ↔
      blockCondGen (found || hasOpenBrace l) (bal + lineDelta l) rest j := by
  simp only [blockCondGen, cumDelta, List.take_succ_cons, List.any_cons, List.map_cons,
    List.sum_cons]
  constructor
  · rintro ⟨h1, h2⟩
    exact ⟨by simpa [Bool.or_assoc] using h1, by omega⟩
  · rintro ⟨h1, h2⟩
    exact ⟨by simpa [Bool.or_assoc] using h1, by omega⟩

lemma scanRuleBlock_least (ls : List String) : ∀ (found : Bool) (bal : Int),
    scanRuleBlock found bal ls ≤ ls.length ∧
    (∀ j < scanRuleBlock found bal ls, ¬ blockCondGen found bal ls j) ∧
    (scanRuleBlock found bal ls < ls.length →
      blockCondGen found bal ls (scanRuleBlock found bal ls)) := by
  induction ls with
  | nil =>
    intro found bal
    have h0 : scanRuleBlock found bal [] = 0 := rfl
    refine ⟨by rw [h0]; exact Nat.zero_le _, fun j hj => ?_, fun h => ?_⟩
    · rw [h0] at hj; omega
    · rw [h0] at h; simp at h
  | cons l rest ih =>
    intro found bal
    by_cases hc : (found || hasOpenBrace l) = true ∧ bal + lineDelta l = 0
    · have hs : scanRuleBlock found bal (l :: rest) = 0 := by
        rw [scanRuleBlock_cons, if_pos hc]
      refine ⟨by rw [hs]; exact Nat.zero_le _, fun j hj => ?_, fun _ => ?_⟩
      · rw [hs] at hj; omega
      · rw [hs]; exact (blockCondGen_zero found bal l rest).mpr hc
    · have hs : scanRuleBlock found bal (l :: rest) =
          1 + scanRuleBlock (found || hasOpenBrace l) (bal + lineDelta l) rest := by
        rw [scanRuleBlock_cons, if_neg hc]
      obtain ⟨ih1, ih2, ih3⟩ := ih (found || hasOpenBrace l) (bal + lineDelta l)
      refine ⟨?_, fun j hj => ?_, fun hlt => ?_⟩
      · rw [hs, List.length_cons]; omega
      · rw [hs] at hj
        match j with
        | 0 => exact fun h => hc ((blockCondGen_zero found bal l rest).mp h)
        | j + 1 =>
          rw [blockCondGen_succ]
          exact ih2 j (by omega)
      · rw [hs] at hlt ⊢
        have hr : scanRuleBlock (found || hasOpenBrace l) (bal + lineDelta l) rest <
            rest.length := by
          rw [List.length_cons] at hlt; omega
        have h := ih3 hr
        rw [show 1 + scanRuleBlock (found || hasOpenBrace l) (bal + lineDelta l) rest =
          (scanRuleBlock (found || hasOpenBrace l) (bal + lineDelta l) rest) + 1 by omega]
        rw [blockCondGen_succ]
        exact h

lemma blockCond_eq_gen (ls : List String) (j : Nat) :
    blockCond ls j ↔ blockCondGen false 0 ls j := by
  simp [blockCond, blockCondGen]

/-- C10 counterexample: on the line list ["\x7d\x7b", "\x7d"] the scanner ends the
block at line 0 (a line containing an open brace was seen and the
cumulative balance is zero), while the claim's condition — the cumulative
count of open minus close braces returns to zero after having been
positive — never holds on this input, so under the claim the block would
never end. -/
theorem c10_brace_scan_cex :
    scanRuleBlock false 0 ["\x7d\x7b", "\x7d"] = 0 ∧ blockEndClaimed ["\x7d\x7b", "\x7d"] = none := by decide

/-- C10 (amended): the line-based scanner ends a rule block exactly at the
first line where the cumulative per-line count of open braces minus close
braces is zero and some line so far has contained at least one open brace
(scanning to the end of input when no such line exists); braces are raw
character counts, so an open brace inside a quoted rule description or a
close brace inside a comment counts toward the balance exactly like a
structural brace, as the two concrete cases show. -/
theorem c10_brace_scan_amended (ls : List String) :
    (scanRuleBlock false 0 ls ≤ ls.length ∧
     (∀ j < scanRuleBlock false 0 ls, ¬ blockCond ls j) ∧
     (scanRuleBlock false 0 ls < ls.length → blockCond ls (scanRuleBlock false 0 ls))) ∧
    scanRuleBlock false 0 ["R1 \x7b @ \"x \x7b y\"", "\x7d", "\x7d"] = 2 ∧
    scanRuleBlock false 0 ["R2 \x7b // note \x7d", "\x7d"] = 0 := by
  refine ⟨?_, by decide, by decide⟩
  obtain ⟨h1, h2, h3⟩ := scanRuleBlock_least ls false 0
  exact ⟨h1, fun j hj hb => h2 j hj ((blockCond_eq_gen ls j).mp hb),
    fun h => (blockCond_eq_gen ls _).mpr (h3 h)⟩

/-- C10 witness: on a two-line block the scanner ends at line 1, where the
ending condition indeed holds. -/
theorem c10_brace_scan_amended_witness : blockCond ["R \x7b", "\x7d"] 1 :=
  (c10_brace_scan_amended ["R \x7b", "\x7d"]).1.2.2 (by decide)
/-- One pass of Python str.replace(old, new) with a nonempty pattern
p :: ps: replaces non-overlapping occurrences leftmost-first, resuming the
scan after each inserted replacement. -/
def replaceAll (p : Char) (ps rep : List Char) : List Char → List Char
  | [] => []
  | c :: cs =>
    if (p :: ps).isPrefixOf (c :: cs) then rep ++ replaceAll p ps rep (cs.drop ps.length)
    else c :: replaceAll p ps rep cs
  termination_by l => l.length
  decreasing_by
  · simp only [List.length_cons, List.length_drop]; omega
  · simp only [List.length_cons]; omega

/-- Python s.replace(pat, rep) (for the nonempty patterns used by the
translator; an empty pattern is returned unchanged here). -/
def pyReplace (s pat rep : String) : String :=
  match pat.toList with
  | [] => s
  | p :: ps => (replaceAll p ps rep.toList s.toList).asString

/-- SVRFToICVTranslator.translate_layer_expression
(svrf_to_icv_translator.py lines 83-93): empty expressions map to the
empty string, otherwise the three space-delimited boolean connectives are
replaced in sequence (AND, then OR, then NOT). -/
def translate_layer_expression (expression : String) : String :=
  if expression = "" then ""
  else pyReplace (pyReplace (pyReplace expression " AND " " & ") " OR " " | ") " NOT " " ! "

/-- Joining a list of words with single spaces. -/
def joinWords : List String → String
  | [] => ""
  | [w] => w
  | w :: x :: rest => w ++ " " ++ joinWords (x :: rest)

/-- Character-level joining with single spaces. -/
def jwChars : List (List Char) → List Char
  | [] => []
  | [w] => w
  | w :: x :: rest => w ++ ' ' :: jwChars (x :: rest)

/-- Word-level substitution of one connective. -/
def connWord (pat rep w : String) : String := if w = pat then rep else w

/-- Word-level substitution of all three connectives. -/
def connSub (w : String) : String :=
  if w = "AND" then "&" else if w = "OR" then "|" else if w = "NOT" then "!" else w

/-- Whether a word is one of the three boolean connectives. -/
def isConn (w : String) : Bool := w == "AND" || w == "OR" || w == "NOT"

lemma asString_data (cs : List Char) : (List.asString cs).data = cs := rfl

lemma asString_eq_iff (cs : List Char) (s : String) : (cs.asString = s) ↔ cs = s.data := by
  constructor
  · intro h; rw [← h]; rfl
  · intro h; cases s; cases h; rfl

lemma replaceAll_cons (p : Char) (ps rep : List Char) (c : Char) (cs : List Char) :
    replaceAll p ps rep (c :: cs) =
      if (p :: ps).isPrefixOf (c :: cs) then rep ++ replaceAll p ps rep (cs.drop ps.length)
      else c :: replaceAll p ps rep cs := by
  rw [replaceAll]

lemma isPrefixOf_cons_ne (p : Char) (ps : List Char) (c : Char) (cs : List Char)
    (h : c ≠ p) : (p :: ps).isPrefixOf (c :: cs) = false := by
  simp [List.isPrefixOf_cons₂]
  intro h2
  exact absurd h2.symm h

lemma replaceAll_word (ps rep : List Char) :
    ∀ (w s : List Char), (∀ c ∈ w, c ≠ ' ') →
      replaceAll ' ' ps rep (w ++ s) = w ++ replaceAll ' ' ps rep s
  | [], s, _ => by simp
  | c :: w, s, h => by
    have hc : c ≠ ' ' := h c (List.mem_cons_self c w)
    rw [List.cons_append, replaceAll_cons,
      if_neg (by rw [isPrefixOf_cons_ne ' ' ps c _ hc]; simp),
      replaceAll_word ps rep w s (fun d hd => h d (List.mem_cons_of_mem c hd))]
    rfl

lemma replaceAll_nil (p : Char) (ps rep : List Char) : replaceAll p ps rep [] = [] := by
  rw [replaceAll]

lemma replaceAll_lone_word (ps rep : List Char) (w : List Char) (h : ∀ c ∈ w, c ≠ ' ') :
    replaceAll ' ' ps rep w = w := by
  have := replaceAll_word ps rep w [] h
  simpa [replaceAll_nil] using this

lemma word_space_prefix_iff :
    ∀ (a b t : List Char), (∀ c ∈ a, c ≠ ' ') → (∀ c ∈ b, c ≠ ' ') →
      ((a ++ [' ']).isPrefixOf (b ++ ' ' :: t) = true ↔ a = b)
  | [], [], t, _, _ => by simp [List.isPrefixOf]
  | [], d :: b, t, _, hb => by
    have hd : d ≠ ' ' := hb d (List.mem_cons_self d b)
    simp [List.isPrefixOf]
    exact fun h => absurd h.symm hd
  | c :: a, [], t, ha, _ => by
    have hc : c ≠ ' ' := ha c (List.mem_cons_self c a)
    simp [List.isPrefixOf]
    intro h
    exact absurd h hc
  | c :: a, d :: b, t, ha, hb => by
    have ih := word_space_prefix_iff a b t
      (fun e he => ha e (List.mem_cons_of_mem c he))
      (fun e he => hb e (List.mem_cons_of_mem d he))
    simp only [List.cons_append, List.isPrefixOf_cons₂, Bool.and_eq_true, beq_iff_eq,
      List.cons.injEq]
    rw [ih]

lemma word_space_not_pre :
    ∀ (a b : List Char), (∀ c ∈ a, c ≠ ' ') → (∀ c ∈ b, c ≠ ' ') →
      (a ++ [' ']).isPrefixOf b = false
  | [], [], _, _ => by simp [List.isPrefixOf]
  | [], d :: b, _, hb => by
    have hd : d ≠ ' ' := hb d (List.mem_cons_self d b)
    simp [List.isPrefixOf]
    exact fun h => absurd h.symm hd
  | c :: a, [], _, _ => by simp [List.isPrefixOf]
  | c :: a, d :: b, ha, hb => by
    have ih := word_space_not_pre a b
      (fun e he => ha e (List.mem_cons_of_mem c he))
      (fun e he => hb e (List.mem_cons_of_mem d he))
    simp only [List.cons_append, List.isPrefixOf_cons₂, ih, Bool.and_false]

lemma replaceAll_join (pw rw : List Char) (hpw : ∀ c ∈ pw, c ≠ ' ') :
    ∀ (ws : List (List Char)),
      (∀ w ∈ ws, ∀ c ∈ w, c ≠ ' ') →
      ws.head? ≠ some pw →
      ws.getLast? ≠ some pw →
      List.Chain' (fun a b => ¬(a = pw ∧ b = pw)) ws →
      replaceAll ' ' (pw ++ [' ']) (' ' :: (rw ++ [' '])) (jwChars ws) =
        jwChars (ws.map fun w => if w = pw then rw else w)
  | [], _, _, _, _ => by simp [jwChars, replaceAll_nil]
  | [w], hsp, hh, _, _ => by
    have hw : ∀ c ∈ w, c ≠ ' ' := hsp w (by simp)
    have hwp : w ≠ pw := fun h => hh (by simp [h])
    simp only [jwChars, List.map_cons, List.map_nil, if_neg hwp]
    exact replaceAll_lone_word _ _ w hw
  | [w, x], hsp, hh, hl, _ => by
    have hw : ∀ c ∈ w, c ≠ ' ' := hsp w (by simp)
    have hx : ∀ c ∈ x, c ≠ ' ' := hsp x (by simp)
    have hwp : w ≠ pw := fun h => hh (by simp [h])
    have hxp : x ≠ pw := fun h => hl (by simp [h])
    have hjw : jwChars [w, x] = w ++ ' ' :: x := rfl
    rw [hjw, replaceAll_word _ _ w _ hw, replaceAll_cons]
    rw [if_neg (by
      simp only [List.isPrefixOf_cons₂, Bool.and_eq_true, beq_self_eq_true, true_and]
      rw [word_space_not_pre pw x hpw hx]
      simp)]
    rw [replaceAll_lone_word _ _ x hx]
    simp only [List.map_cons, List.map_nil, if_neg hwp, if_neg hxp]
    rfl
  | w :: x :: y :: rest, hsp, hh, hl, hch => by
    have hw : ∀ c ∈ w, c ≠ ' ' := hsp w (by simp)
    have hx : ∀ c ∈ x, c ≠ ' ' := hsp x (by simp)
    have hwp : w ≠ pw := fun h => hh (by simp [h])
    have hsp2 : ∀ v ∈ x :: y :: rest, ∀ c ∈ v, c ≠ ' ' :=
      fun v hv => hsp v (List.mem_cons_of_mem w hv)
    have hsp3 : ∀ v ∈ y :: rest, ∀ c ∈ v, c ≠ ' ' :=
      fun v hv => hsp2 v (List.mem_cons_of_mem x hv)
    have hch2 : List.Chain' (fun a b => ¬(a = pw ∧ b = pw)) (x :: y :: rest) :=
      (List.chain'_cons.mp hch).2
    have hch3 : List.Chain' (fun a b => ¬(a = pw ∧ b = pw)) (y :: rest) :=
      (List.chain'_cons.mp hch2).2
    have hedge : ¬(x = pw ∧ y = pw) := (List.chain'_cons.mp hch2).1
    have hl2 : (x :: y :: rest).getLast? ≠ some pw := by
      rwa [List.getLast?_cons_cons] at hl
    have hl3 : (y :: rest).getLast? ≠ some pw := by
      rwa [List.getLast?_cons_cons] at hl2
    have hjw : jwChars (w :: x :: y :: rest) = w ++ ' ' :: jwChars (x :: y :: rest) := rfl
    rw [hjw, replaceAll_word _ _ w _ hw, replaceAll_cons]
    have hjw2 : jwChars (x :: y :: rest) = x ++ ' ' :: jwChars (y :: rest) := rfl
    by_cases hxp : x = pw
    · subst hxp
      rw [if_pos (by
        simp only [List.isPrefixOf_cons₂, Bool.and_eq_true, beq_self_eq_true, true_and]
        rw [hjw2, word_space_prefix_iff x x _ hx hx])]
      have hdrop : (jwChars (x :: y :: rest)).drop (x ++ [' ']).length = jwChars (y :: rest) := by
        rw [hjw2, show x ++ ' ' :: jwChars (y :: rest) = (x ++ [' ']) ++ jwChars (y :: rest) by
          simp, List.drop_left]
      rw [hdrop]
      have hyp : y ≠ x := fun h => hedge ⟨rfl, h⟩
      have ih := replaceAll_join x rw hpw (y :: rest) hsp3
        (by simpa using hyp) hl3 hch3
      rw [ih]
      simp only [List.map_cons, if_neg hwp, if_pos rfl, jwChars]
      simp [List.append_assoc]
    · rw [if_neg (by
        simp only [List.isPrefixOf_cons₂, Bool.and_eq_true, beq_self_eq_true, true_and]
        rw [hjw2, word_space_prefix_iff pw x _ hpw hx]
        simpa using fun h => hxp h.symm)]
      have ih := replaceAll_join pw rw hpw (x :: y :: rest) hsp2
        (by simpa using hxp) hl2 hch2
      rw [ih]
      simp only [List.map_cons, if_neg hwp, if_neg hxp]
      rfl
  termination_by ws => ws.length
  decreasing_by
  all_goals simp only [List.length_cons]; omega

lemma toList_inj (a b : String) (h : a.toList = b.toList) : a = b := by
  cases a; cases b
  exact congrArg String.mk h

lemma pyReplace_eq (s pat rep : String) (p : Char) (ps : List Char)
    (hp : pat.toList = p :: ps) :
    pyReplace s pat rep = (replaceAll p ps rep.toList s.toList).asString := by
  unfold pyReplace
  rw [hp]

lemma asString_toList (s : String) : s.toList.asString = s := by
  cases s; rfl

lemma joinWords_toList :
    ∀ ws : List String, (joinWords ws).toList = jwChars (ws.map String.toList)
  | [] => rfl
  | [w] => rfl
  | w :: x :: rest => by
    have ih := joinWords_toList (x :: rest)
    simp only [joinWords, jwChars, List.map_cons]
    rw [show ((w ++ " " ++ joinWords (x :: rest)).toList = w.toList ++ ' ' ::
      (joinWords (x :: rest)).toList) by simp [String.toList], ih]
    rfl

lemma pyReplace_join (pwS rwS pat rep : String)
    (hpat : pat.toList = ' ' :: (pwS.toList ++ [' ']))
    (hrep : rep.toList = ' ' :: (rwS.toList ++ [' ']))
    (hpw : ∀ c ∈ pwS.toList, c ≠ ' ')
    (ws : List String)
    (hsp : ∀ w ∈ ws, ∀ c ∈ w.toList, c ≠ ' ')
    (hh : ws.head? ≠ some pwS)
    (hl : ws.getLast? ≠ some pwS)
    (hch : List.Chain' (fun a b => ¬(a = pwS ∧ b = pwS)) ws) :
    pyReplace (joinWords ws) pat rep = joinWords (ws.map (connWord pwS rwS)) := by
  have hmain := replaceAll_join pwS.toList rwS.toList hpw (ws.map String.toList)
    (by
      intro w hw
      obtain ⟨v, hv, rfl⟩ := List.mem_map.mp hw
      exact hsp v hv)
    (by
      rw [List.head?_map]
      intro h
      match hws : ws.head? with
      | none => rw [hws] at h; simp at h
      | some v =>
        rw [hws] at h
        simp only [Option.map_some', Option.some.injEq] at h
        exact hh (by rw [hws, toList_inj v pwS h]))
    (by
      rw [List.getLast?_map]
      intro h
      match hws : ws.getLast? with
      | none => rw [hws] at h; simp at h
      | some v =>
        rw [hws] at h
        simp only [Option.map_some', Option.some.injEq] at h
        exact hl (by rw [hws, toList_inj v pwS h]))
    (by
      rw [List.chain'_map]
      refine List.Chain'.imp ?_ hch
      intro a b hab ⟨h1, h2⟩
      exact hab ⟨toList_inj a pwS h1, toList_inj b pwS h2⟩)
  rw [pyReplace_eq (joinWords ws) pat rep ' ' (pwS.toList ++ [' ']) hpat]
  rw [hrep, joinWords_toList, hmain,
    ← asString_toList (joinWords (List.map (connWord pwS rwS) ws)), joinWords_toList]
  congr 1
  rw [List.map_map, List.map_map]
  congr 1
  refine List.map_congr_left ?_
  intro w _
  simp only [Function.comp_apply, connWord]
  by_cases hw : w = pwS
  · rw [if_pos hw, if_pos (by rw [hw])]
  · rw [if_neg hw, if_neg (fun h => hw (toList_inj w pwS h))]

lemma connWord_comp (w : String) :
    connWord "NOT" "!" (connWord "OR" "|" (connWord "AND" "&" w)) = connSub w := by
  unfold connWord connSub
  by_cases h1 : w = "AND"
  · subst h1; decide
  · simp only [if_neg h1]
    by_cases h2 : w = "OR"
    · subst h2; decide
    · simp only [if_neg h2]

lemma connWord_space_free (p r w : String) (hr : ∀ c ∈ r.toList, c ≠ ' ')
    (hw : ∀ c ∈ w.toList, c ≠ ' ') : ∀ c ∈ (connWord p r w).toList, c ≠ ' ' := by
  unfold connWord
  by_cases h : w = p
  · rw [if_pos h]; exact hr
  · rw [if_neg h]; exact hw

lemma joinWords_empty_map (ws : List String) (h : joinWords ws = "") :
    joinWords (ws.map connSub) = "" := by
  match ws with
  | [] => rfl
  | [w] =>
    have hw : w = "" := h
    subst hw
    decide
  | w :: x :: rest =>
    exfalso
    have h2 : (joinWords (w :: x :: rest)).toList = [] := by rw [h]; rfl
    rw [joinWords_toList] at h2
    simp [jwChars] at h2

/-- C9 counterexample: the rewriter replaces only space-surrounded
occurrences, so a connective at the start of the string is not rewritten:
NOT A stays NOT A instead of becoming ! A. -/
theorem c9_rewriter_cex :
    translate_layer_expression "NOT A" = "NOT A" ∧ ("NOT A" : String) ≠ "! A" := by
  constructor
  · simp [translate_layer_expression, pyReplace, replaceAll, asString_data, asString_eq_iff]
  · decide

/-- C9 (amended): on an expression assembled from space-free words, the
rewriter maps each connective word AND, OR, NOT to its symbol and leaves
every other word (including parenthesized ones) unchanged, provided no
connective stands at the start or the end of the expression and no two
identical connectives are adjacent; in particular POLY AND ACTIVE rewrites
to POLY & ACTIVE. -/
theorem c9_rewriter_amended (ws : List String)
    (hsp : ∀ w ∈ ws, ∀ c ∈ w.toList, c ≠ ' ')
    (hh : ∀ w, ws.head? = some w → isConn w = false)
    (hl : ∀ w, ws.getLast? = some w → isConn w = false)
    (hch : List.Chain' (fun a b => ¬(a = b ∧ isConn a = true)) ws) :
    translate_layer_expression (joinWords ws) = joinWords (ws.map connSub) ∧
    translate_layer_expression "POLY AND ACTIVE" = "POLY & ACTIVE" ∧
    translate_layer_expression "(POLY AND ACTIVE) OR NWELL" = "(POLY & ACTIVE) | NWELL" := by
  refine ⟨?_,
    by simp [translate_layer_expression, pyReplace, replaceAll, asString_data, asString_eq_iff],
    by simp [translate_layer_expression, pyReplace, replaceAll, asString_data, asString_eq_iff]⟩
  unfold translate_layer_expression
  by_cases h0 : joinWords ws = ""
  · rw [if_pos h0, joinWords_empty_map ws h0]
  rw [if_neg h0]
  have hconn : ∀ (p : String), isConn p = true → ∀ w, ws.head? = some w → w ≠ p := by
    intro p hp w hw heq
    subst heq
    rw [hh w hw] at hp
    exact Bool.false_ne_true hp
  have hconnl : ∀ (p : String), isConn p = true → ∀ w, ws.getLast? = some w → w ≠ p := by
    intro p hp w hw heq
    subst heq
    rw [hl w hw] at hp
    exact Bool.false_ne_true hp
  have hh1 : ws.head? ≠ some "AND" := by
    intro h
    exact hconn "AND" (by decide) "AND" h rfl
  have hl1 : ws.getLast? ≠ some "AND" := by
    intro h
    exact hconnl "AND" (by decide) "AND" h rfl
  have hch1 : List.Chain' (fun a b => ¬(a = "AND" ∧ b = "AND")) ws := by
    refine List.Chain'.imp ?_ hch
    rintro a b hab ⟨rfl, rfl⟩
    exact hab ⟨rfl, by decide⟩
  have hpass1 := pyReplace_join "AND" "&" " AND " " & " rfl rfl (by decide)
    ws hsp hh1 hl1 hch1
  rw [hpass1]
  set ws1 := ws.map (connWord "AND" "&") with hws1
  have hsp1 : ∀ w ∈ ws1, ∀ c ∈ w.toList, c ≠ ' ' := by
    intro w hw
    obtain ⟨v, hv, rfl⟩ := List.mem_map.mp hw
    exact connWord_space_free "AND" "&" v (by decide) (hsp v hv)
  have hh2 : ws1.head? ≠ some "OR" := by
    rw [hws1, List.head?_map]
    intro h
    match hws : ws.head? with
    | none => rw [hws] at h; simp at h
    | some v =>
      rw [hws] at h
      simp only [Option.map_some', Option.some.injEq] at h
      have hv : v = "OR" := by
        unfold connWord at h
        by_cases hva : v = "AND"
        · rw [if_pos hva] at h; exact absurd h (by decide)
        · rwa [if_neg hva] at h
      exact hconn "OR" (by decide) v hws hv
  have hl2 : ws1.getLast? ≠ some "OR" := by
    rw [hws1, List.getLast?_map]
    intro h
    match hws : ws.getLast? with
    | none => rw [hws] at h; simp at h
    | some v =>
      rw [hws] at h
      simp only [Option.map_some', Option.some.injEq] at h
      have hv : v = "OR" := by
        unfold connWord at h
        by_cases hva : v = "AND"
        · rw [if_pos hva] at h; exact absurd h (by decide)
        · rwa [if_neg hva] at h
      exact hconnl "OR" (by decide) v hws hv
  have hch2 : List.Chain' (fun a b => ¬(a = "OR" ∧ b = "OR")) ws1 := by
    rw [hws1, List.chain'_map]
    refine List.Chain'.imp ?_ hch
    intro a b hab ⟨h1, h2⟩
    have ha : a = "OR" := by
      unfold connWord at h1
      by_cases hva : a = "AND"
      · rw [if_pos hva] at h1; exact absurd h1 (by decide)
      · rwa [if_neg hva] at h1
    have hb : b = "OR" := by
      unfold connWord at h2
      by_cases hvb : b = "AND"
      · rw [if_pos hvb] at h2; exact absurd h2 (by decide)
      · rwa [if_neg hvb] at h2
    exact hab ⟨ha.trans hb.symm, by rw [ha]; decide⟩
  have hpass2 := pyReplace_join "OR" "|" " OR " " | " rfl rfl (by decide)
    ws1 hsp1 hh2 hl2 hch2
  rw [hpass2]
  set ws2 := ws1.map (connWord "OR" "|") with hws2
  have hsp2 : ∀ w ∈ ws2, ∀ c ∈ w.toList, c ≠ ' ' := by
    intro w hw
    obtain ⟨v, hv, rfl⟩ := List.mem_map.mp hw
    exact connWord_space_free "OR" "|" v (by decide) (hsp1 v hv)
  have hnot_of : ∀ v : String, connWord "OR" "|" (connWord "AND" "&" v) = "NOT" → v = "NOT" := by
    intro v h
    unfold connWord at h
    by_cases hva : v = "AND"
    · rw [if_pos hva] at h
      by_cases hx : ("&" : String) = "OR"
      · exact absurd hx (by decide)
      · rw [if_neg hx] at h; exact absurd h (by decide)
    · rw [if_neg hva] at h
      by_cases hx : v = "OR"
      · rw [if_pos hx] at h; exact absurd h (by decide)
      · rwa [if_neg hx] at h
  have hh3 : ws2.head? ≠ some "NOT" := by
    rw [hws2, hws1, List.map_map, List.head?_map]
    intro h
    match hws : ws.head? with
    | none => rw [hws] at h; simp at h
    | some v =>
      rw [hws] at h
      simp only [Option.map_some', Option.some.injEq, Function.comp_apply] at h
      exact hconn "NOT" (by decide) v hws (hnot_of v h)
  have hl3 : ws2.getLast? ≠ some "NOT" := by
    rw [hws2, hws1, List.map_map, List.getLast?_map]
    intro h
    match hws : ws.getLast? with
    | none => rw [hws] at h; simp at h
    | some v =>
      rw [hws] at h
      simp only [Option.map_some', Option.some.injEq, Function.comp_apply] at h
      exact hconnl "NOT" (by decide) v hws (hnot_of v h)
  have hch3 : List.Chain' (fun a b => ¬(a = "NOT" ∧ b = "NOT")) ws2 := by
    rw [hws2, hws1, List.map_map, List.chain'_map]
    refine List.Chain'.imp ?_ hch
    intro a b hab ⟨h1, h2⟩
    simp only [Function.comp_apply] at h1 h2
    have ha := hnot_of a h1
    have hb := hnot_of b h2
    exact hab ⟨ha.trans hb.symm, by rw [ha]; decide⟩
  have hpass3 := pyReplace_join "NOT" "!" " NOT " " ! " rfl rfl (by decide)
    ws2 hsp2 hh3 hl3 hch3
  rw [hpass3]
  rw [hws2, hws1, List.map_map, List.map_map]
  congr 1
  refine List.map_congr_left ?_
  intro w _
  simp only [Function.comp_apply]
  exact connWord_comp w

/-- C9 witness: the derived-layer example POLY AND ACTIVE rewrites
wordwise to POLY & ACTIVE. -/
theorem c9_rewriter_amended_witness :
    translate_layer_expression (joinWords ["POLY", "AND", "ACTIVE"]) =
      joinWords (["POLY", "AND", "ACTIVE"].map connSub) :=
  (c9_rewriter_amended ["POLY", "AND", "ACTIVE"]
    (by decide)
    (fun w h => by cases Option.some.inj h; decide)
    (fun w h => by cases Option.some.inj h; decide)
    (by simp [List.chain'_cons])).1

/-- TokenType of svrf_drc_parser.py (lines 14-62). -/
inductive TokenType where
  | IDENTIFIER | NUMBER | STRING
  | LAYER | INCLUDE | LAYOUT | SYSTEM | GDSII
  | AND | OR | NOT | INSIDE | BY
  | INTERNAL1 | INTERNAL2 | EXTERNAL | EXTERNAL1
  | AREA | DENSITY | WINDOW | SINGULAR
  | LT | GT | EQ | ASSIGN
  | LBRACE | RBRACE | LPAREN | RPAREN | COMMA | SEMICOLON | AT
  | COMMENT | NEWLINE | EOF
deriving DecidableEq

/-- Token of svrf_drc_parser.py (lines 64-69). -/
structure Token where
  type : TokenType
  value : String
  line : Nat
  column : Nat
deriving DecidableEq

/-- The case-sensitive keyword table of SVRFLexer (lines 107-126). -/
def svrfKeywords : List (String × TokenType) :=
  [("LAYER", .LAYER), ("INCLUDE", .INCLUDE), ("LAYOUT", .LAYOUT),
   ("SYSTEM", .SYSTEM), ("GDSII", .GDSII), ("AND", .AND), ("OR", .OR),
   ("NOT", .NOT), ("INSIDE", .INSIDE), ("BY", .BY),
   ("INTERNAL1", .INTERNAL1), ("INTERNAL2", .INTERNAL2),
   ("EXTERNAL", .EXTERNAL), ("EXTERNAL1", .EXTERNAL1), ("AREA", .AREA),
   ("DENSITY", .DENSITY), ("WINDOW", .WINDOW), ("SINGULAR", .SINGULAR)]

/-- Keyword lookup of read_identifier (line 205): the keyword's type, or
IDENTIFIER. -/
def keywordType (s : String) : TokenType :=
  ((svrfKeywords.find? (fun p => p.1 == s)).map Prod.snd).getD .IDENTIFIER

/-- The single-character token table of tokenize (lines 253-264). -/
def singleTok (ch : Char) : Option TokenType :=
  match ch with
  | '\x7b' => some .LBRACE
  | '\x7d' => some .RBRACE
  | '(' => some .LPAREN
  | ')' => some .RPAREN
  | ',' => some .COMMA
  | ';' => some .SEMICOLON
  | '@' => some .AT
  | '<' => some .LT
  | '>' => some .GT
  | '=' => some .ASSIGN
  | _ => none

/-- The whitespace set of skip_whitespace (line 148): space, tab and
carriage return, not newline. -/
def isLexWs (c : Char) : Bool := c == ' ' || c == '\t' || c == '\r'

/-- Line/column advance over one consumed character (SVRFLexer.advance,
lines 139-145). -/
def advLC (ch : Char) (l c : Nat) : Nat × Nat :=
  if ch = '\n' then (l + 1, 1) else (l, c + 1)

/-- The body loop of read_string (lines 165-184), entered after the
opening quote: consumes up to and including the matching unescaped quote
(or all remaining input when the string is unterminated), a backslash
escaping the following character.  Returns the accumulated value, the
rest of the input, and the updated line/column. -/
def readStringAux (q : Char) : List Char → List Char → Nat → Nat →
    List Char × List Char × Nat × Nat
  | [], acc, l, c => (acc, [], l, c)
  | ch :: rest, acc, l, c =>
    if ch = q then (acc, rest, l, c + 1)
    else if ch = '\\' then
      match rest with
      | [] => (acc, [], l, c + 1)
      | d :: rest2 =>
        readStringAux q rest2 (acc ++ [d]) (advLC d l (c + 1)).1 (advLC d l (c + 1)).2
    else
      readStringAux q rest (acc ++ [ch]) (advLC ch l c).1 (advLC ch l c).2

/-- One dispatch step of the tokenize loop (lines 208-272) on a nonempty
input after whitespace skipping: the produced token (none when the
character is unrecognized and silently skipped), the rest of the input,
and the updated line/column.  Within each branch the branch's entry
condition makes the head character part of the corresponding character
run, exactly as in the Python code which reads the run starting at the
current position. -/
def lexOne (ch : Char) (rs : List Char) (l c : Nat) :
    Option Token × List Char × Nat × Nat :=
  if ch = '/' ∧ rs.head? = some '/' then
    let body := rs.tail.takeWhile (fun x => x ≠ '\n')
    (some ⟨.COMMENT, pyStrip body.asString, l, c⟩,
      rs.tail.dropWhile (fun x => x ≠ '\n'), l, c + 2 + body.length)
  else if ch = '\n' then
    (some ⟨.NEWLINE, "\n", l, c⟩, rs, l + 1, 1)
  else if ch = '"' ∨ ch = '\'' then
    let r := readStringAux ch rs [] l (c + 1)
    (some ⟨.STRING, r.1.asString, l, c⟩, r.2.1, r.2.2.1, r.2.2.2)
  else if ch.isDigit ∨ (ch = '.' ∧ (rs.head?.map Char.isDigit).getD false) then
    let v := ch :: rs.takeWhile isNumChar
    (some ⟨.NUMBER, v.asString, l, c⟩, rs.dropWhile isNumChar, l, c + v.length)
  else if ch.isAlpha ∨ ch = '_' then
    let v := ch :: rs.takeWhile isWordChar
    (some ⟨keywordType v.asString, v.asString, l, c⟩,
      rs.dropWhile isWordChar, l, c + v.length)
  else if ch = '=' ∧ rs.head? = some '=' then
    (some ⟨.EQ, "==", l, c⟩, rs.tail, l, c + 2)
  else
    match singleTok ch with
    | some tt => (some ⟨tt, [ch].asString, l, c⟩, rs, l, c + 1)
    | none => (none, rs, l, c + 1)

lemma dropWhile_length_le {α : Type} (p : α → Bool) :
    ∀ l : List α, (l.dropWhile p).length ≤ l.length
  | [] => by simp
  | c :: t => by
    rw [List.dropWhile_cons]
    by_cases h : p c = true
    · rw [if_pos h]
      exact le_trans (dropWhile_length_le p t) (by simp)
    · rw [if_neg h]

lemma readStringAux_rest_le (q : Char) :
    ∀ (cs acc : List Char) (l c : Nat),
      (readStringAux q cs acc l c).2.1.length ≤ cs.length
  | [], _, _, _ => by rw [readStringAux]
  | ch :: rest, acc, l, c => by
    rw [readStringAux.eq_def]
    dsimp only
    by_cases h1 : ch = q
    · rw [if_pos h1]; simp
    · rw [if_neg h1]
      by_cases h2 : ch = '\\'
      · rw [if_pos h2]
        match rest with
        | [] => simp
        | d :: rest2 =>
          have ih := readStringAux_rest_le q rest2 (acc ++ [d])
            (advLC d l (c + 1)).1 (advLC d l (c + 1)).2
          simp only [List.length_cons]
          omega
      · rw [if_neg h2]
        have ih := readStringAux_rest_le q rest (acc ++ [ch])
          (advLC ch l c).1 (advLC ch l c).2
        simp only [List.length_cons]
        omega

lemma lexOne_rest_le (ch : Char) (rs : List Char) (l c : Nat) :
    (lexOne ch rs l c).2.1.length ≤ rs.length := by
  unfold lexOne
  by_cases h1 : ch = '/' ∧ rs.head? = some '/'
  · rw [if_pos h1]
    exact le_trans (dropWhile_length_le _ rs.tail) (by cases rs <;> simp)
  rw [if_neg h1]
  by_cases h2 : ch = '\n'
  · rw [if_pos h2]
  rw [if_neg h2]
  by_cases h3 : ch = '"' ∨ ch = '\''
  · rw [if_pos h3]
    exact readStringAux_rest_le ch rs [] l (c + 1)
  rw [if_neg h3]
  by_cases h4 : ch.isDigit = true ∨ (ch = '.' ∧ (rs.head?.map Char.isDigit).getD false = true)
  · rw [if_pos h4]
    exact dropWhile_length_le _ rs
  rw [if_neg h4]
  by_cases h5 : ch.isAlpha = true ∨ ch = '_'
  · rw [if_pos h5]
    exact dropWhile_length_le _ rs
  rw [if_neg h5]
  by_cases h6 : ch = '=' ∧ rs.head? = some '='
  · rw [if_pos h6]
    cases rs <;> simp
  rw [if_neg h6]
  match singleTok ch with
  | some tt => simp
  | none => simp

/-- SVRFLexer.tokenize (lines 208-275): skip whitespace, dispatch on the
current character, recurse on the rest; a terminal EOF token is appended
when the input is exhausted.  The loop is given explicit fuel; every
iteration consumes at least one character, so any fuel exceeding the
input length is sufficient (tokenize below supplies length + 1) and the
fuel-exhaustion branch is unreachable. -/
def tokenizeF : Nat → List Char → Nat → Nat → List Token
  | 0, _, _, _ => []
  | fuel + 1, cs, l, c =>
    match cs.dropWhile isLexWs with
    | [] => [⟨.EOF, "", l, c + (cs.takeWhile isLexWs).length⟩]
    | ch :: rs =>
      match lexOne ch rs l (c + (cs.takeWhile isLexWs).length) with
      | (some t, r2, l2, c2) => t :: tokenizeF fuel r2 l2 c2
      | (none, r2, l2, c2) => tokenizeF fuel r2 l2 c2

/-- tokenize on a whole input string, beginning at line 1, column 1. -/
def tokenize (s : String) : List Token := tokenizeF (s.toList.length + 1) s.toList 1 1

lemma keywordType_ne_eof (s : String) : keywordType s ≠ .EOF := by
  unfold keywordType
  match hf : svrfKeywords.find? (fun p => p.1 == s) with
  | none => simp [hf]
  | some p =>
    simp only [hf, Option.map_some', Option.getD_some]
    have hmem : p ∈ svrfKeywords := List.mem_of_find?_eq_some hf
    have : ∀ q ∈ svrfKeywords, q.2 ≠ TokenType.EOF := by decide
    exact this p hmem

lemma tokenizeF_succ (fuel : Nat) (cs : List Char) (l c : Nat) :
    tokenizeF (fuel + 1) cs l c =
      match cs.dropWhile isLexWs with
      | [] => [⟨.EOF, "", l, c + (cs.takeWhile isLexWs).length⟩]
      | ch :: rs =>
        match lexOne ch rs l (c + (cs.takeWhile isLexWs).length) with
        | (some t, r2, l2, c2) => t :: tokenizeF fuel r2 l2 c2
        | (none, r2, l2, c2) => tokenizeF fuel r2 l2 c2 := rfl

lemma lexOne_type_ne_eof (ch : Char) (rs : List Char) (l c : Nat) :
    ∀ t, (lexOne ch rs l c).1 = some t → t.type ≠ .EOF := by
  unfold lexOne
  by_cases h1 : ch = '/' ∧ rs.head? = some '/'
  · rw [if_pos h1]; rintro t ht; cases ht; simp
  rw [if_neg h1]
  by_cases h2 : ch = '\n'
  · rw [if_pos h2]; rintro t ht; cases ht; simp
  rw [if_neg h2]
  by_cases h3 : ch = '"' ∨ ch = '\''
  · rw [if_pos h3]; rintro t ht; cases ht; simp
  rw [if_neg h3]
  by_cases h4 : ch.isDigit = true ∨ (ch = '.' ∧ (rs.head?.map Char.isDigit).getD false = true)
  · rw [if_pos h4]; rintro t ht; cases ht; simp
  rw [if_neg h4]
  by_cases h5 : ch.isAlpha = true ∨ ch = '_'
  · rw [if_pos h5]
    rintro t ht
    cases ht
    exact keywordType_ne_eof _
  rw [if_neg h5]
  by_cases h6 : ch = '=' ∧ rs.head? = some '='
  · rw [if_pos h6]; rintro t ht; cases ht; simp
  rw [if_neg h6]
  match hs : singleTok ch with
  | some tt =>
    rintro t ht
    cases ht
    have hne : ∀ u, singleTok ch = some u → u ≠ TokenType.EOF := by
      unfold singleTok
      split <;> rintro u hu <;> (try cases hu) <;> simp
    exact hne tt hs
  | none => rintro t ht; cases ht

lemma tokenizeF_eof_structure :
    ∀ (fuel : Nat) (cs : List Char) (l c : Nat), cs.length < fuel →
      ∃ ts l2 c2, tokenizeF fuel cs l c = ts ++ [⟨.EOF, "", l2, c2⟩] ∧
        ∀ t ∈ ts, t.type ≠ .EOF
  | 0, cs, l, c, h => absurd h (by omega)
  | fuel + 1, cs, l, c, h => by
    match hr : cs.dropWhile isLexWs with
    | [] =>
      refine ⟨[], l, c + (cs.takeWhile isLexWs).length, ?_, by simp⟩
      rw [tokenizeF_succ, hr]
      rfl
    | ch :: rs =>
      have hlen : rs.length < fuel := by
        have h1 : (ch :: rs).length ≤ cs.length := by
          rw [← hr]; exact dropWhile_length_le _ cs
        simp only [List.length_cons] at h1
        omega
      match hx : lexOne ch rs l (c + (cs.takeWhile isLexWs).length) with
      | (some t, r2, l2, c2) =>
        have hstep0 : tokenizeF (fuel + 1) cs l c =
            match lexOne ch rs l (c + (cs.takeWhile isLexWs).length) with
            | (some t, r2, l2, c2) => t :: tokenizeF fuel r2 l2 c2
            | (none, r2, l2, c2) => tokenizeF fuel r2 l2 c2 := by
          rw [tokenizeF_succ, hr]
        have hstep : tokenizeF (fuel + 1) cs l c = t :: tokenizeF fuel r2 l2 c2 := by
          rw [hstep0, hx]
        have hr2 : r2.length ≤ rs.length := by
          have hb := lexOne_rest_le ch rs l (c + (cs.takeWhile isLexWs).length)
          rw [hx] at hb
          simpa using hb
        obtain ⟨ts, l3, c3, hts, hne⟩ :=
          tokenizeF_eof_structure fuel r2 l2 c2 (by omega)
        refine ⟨t :: ts, l3, c3, ?_, ?_⟩
        · rw [hstep, hts]; rfl
        · intro u hu
          rcases List.mem_cons.mp hu with rfl | hu2
          · have hz := lexOne_type_ne_eof ch rs l (c + (cs.takeWhile isLexWs).length) u
            rw [hx] at hz
            exact hz rfl
          · exact hne u hu2
      | (none, r2, l2, c2) =>
        have hstep0 : tokenizeF (fuel + 1) cs l c =
            match lexOne ch rs l (c + (cs.takeWhile isLexWs).length) with
            | (some t, r2, l2, c2) => t :: tokenizeF fuel r2 l2 c2
            | (none, r2, l2, c2) => tokenizeF fuel r2 l2 c2 := by
          rw [tokenizeF_succ, hr]
        have hstep : tokenizeF (fuel + 1) cs l c = tokenizeF fuel r2 l2 c2 := by
          rw [hstep0, hx]
        have hr2 : r2.length ≤ rs.length := by
          have hb := lexOne_rest_le ch rs l (c + (cs.takeWhile isLexWs).length)
          rw [hx] at hb
          simpa using hb
        obtain ⟨ts, l3, c3, hts, hne⟩ :=
          tokenizeF_eof_structure fuel r2 l2 c2 (by omega)
        exact ⟨ts, l3, c3, by rw [hstep, hts], hne⟩

lemma readStringAux_rest_indep (q : Char) :
    ∀ (cs acc : List Char) (l c : Nat) (acc2 : List Char) (l2 c2 : Nat),
      (readStringAux q cs acc l c).2.1 = (readStringAux q cs acc2 l2 c2).2.1
  | [], _, _, _, _, _, _ => by rw [readStringAux, readStringAux]
  | ch :: rest, acc, l, c, acc2, l2, c2 => by
    rw [readStringAux.eq_def, readStringAux.eq_def]
    dsimp only
    by_cases h1 : ch = q
    · rw [if_pos h1, if_pos h1]
    · rw [if_neg h1, if_neg h1]
      by_cases h2 : ch = '\\'
      · rw [if_pos h2, if_pos h2]
        match rest with
        | [] => rfl
        | d :: rest2 => exact readStringAux_rest_indep q rest2 _ _ _ _ _ _
      · rw [if_neg h2, if_neg h2]
        exact readStringAux_rest_indep q rest _ _ _ _ _ _

lemma lexOne_indep (ch : Char) (rs : List Char) (l c l2 c2 : Nat) :
    (lexOne ch rs l c).1.map Token.type = (lexOne ch rs l2 c2).1.map Token.type ∧
    (lexOne ch rs l c).2.1 = (lexOne ch rs l2 c2).2.1 := by
  unfold lexOne
  by_cases h1 : ch = '/' ∧ rs.head? = some '/'
  · rw [if_pos h1, if_pos h1]; exact ⟨rfl, rfl⟩
  rw [if_neg h1, if_neg h1]
  by_cases h2 : ch = '\n'
  · rw [if_pos h2, if_pos h2]; exact ⟨rfl, rfl⟩
  rw [if_neg h2, if_neg h2]
  by_cases h3 : ch = '"' ∨ ch = '\''
  · rw [if_pos h3, if_pos h3]
    exact ⟨rfl, readStringAux_rest_indep ch rs [] l (c+1) [] l2 (c2+1)⟩
  rw [if_neg h3, if_neg h3]
  by_cases h4 : ch.isDigit = true ∨ (ch = '.' ∧ (rs.head?.map Char.isDigit).getD false = true)
  · rw [if_pos h4, if_pos h4]; exact ⟨rfl, rfl⟩
  rw [if_neg h4, if_neg h4]
  by_cases h5 : ch.isAlpha = true ∨ ch = '_'
  · rw [if_pos h5, if_pos h5]; exact ⟨rfl, rfl⟩
  rw [if_neg h5, if_neg h5]
  by_cases h6 : ch = '=' ∧ rs.head? = some '='
  · rw [if_pos h6, if_pos h6]; exact ⟨rfl, rfl⟩
  rw [if_neg h6, if_neg h6]
  match singleTok ch with
  | some tt => exact ⟨rfl, rfl⟩
  | none => exact ⟨rfl, rfl⟩

lemma tokenizeF_types_indep :
    ∀ (fuel : Nat) (cs : List Char) (l c l2 c2 : Nat),
      (tokenizeF fuel cs l c).map Token.type = (tokenizeF fuel cs l2 c2).map Token.type
  | 0, _, _, _, _, _ => rfl
  | fuel + 1, cs, l, c, l2, c2 => by
    match hr : cs.dropWhile isLexWs with
    | [] =>
      have e1 : tokenizeF (fuel + 1) cs l c =
          [⟨.EOF, "", l, c + (cs.takeWhile isLexWs).length⟩] := by
        rw [tokenizeF_succ, hr]
      have e2 : tokenizeF (fuel + 1) cs l2 c2 =
          [⟨.EOF, "", l2, c2 + (cs.takeWhile isLexWs).length⟩] := by
        rw [tokenizeF_succ, hr]
      rw [e1, e2]
      rfl
    | ch :: rs =>
      have e1 : tokenizeF (fuel + 1) cs l c =
          match lexOne ch rs l (c + (cs.takeWhile isLexWs).length) with
          | (some t, r2, l3, c3) => t :: tokenizeF fuel r2 l3 c3
          | (none, r2, l3, c3) => tokenizeF fuel r2 l3 c3 := by
        rw [tokenizeF_succ, hr]
      have e2 : tokenizeF (fuel + 1) cs l2 c2 =
          match lexOne ch rs l2 (c2 + (cs.takeWhile isLexWs).length) with
          | (some t, r2, l3, c3) => t :: tokenizeF fuel r2 l3 c3
          | (none, r2, l3, c3) => tokenizeF fuel r2 l3 c3 := by
        rw [tokenizeF_succ, hr]
      obtain ⟨hty, hrest⟩ := lexOne_indep ch rs l (c + (cs.takeWhile isLexWs).length)
        l2 (c2 + (cs.takeWhile isLexWs).length)
      rw [e1, e2]
      match hx1 : lexOne ch rs l (c + (cs.takeWhile isLexWs).length),
            hx2 : lexOne ch rs l2 (c2 + (cs.takeWhile isLexWs).length) with
      | (some t, r2, l3, c3), (some t2, r2b, l3b, c3b) =>
        rw [hx1, hx2] at hty hrest
        simp only [Option.map_some', Option.some.injEq] at hty
        simp only at hrest
        show (t :: tokenizeF fuel r2 l3 c3).map Token.type =
          (t2 :: tokenizeF fuel r2b l3b c3b).map Token.type
        simp only [List.map_cons]
        rw [hty, ← hrest]
        rw [tokenizeF_types_indep fuel r2 l3 c3 l3b c3b]
      | (some t, r2, l3, c3), (none, r2b, l3b, c3b) =>
        rw [hx1, hx2] at hty
        simp at hty
      | (none, r2, l3, c3), (some t2, r2b, l3b, c3b) =>
        rw [hx1, hx2] at hty
        simp at hty
      | (none, r2, l3, c3), (none, r2b, l3b, c3b) =>
        rw [hx1, hx2] at hrest
        simp only at hrest
        show (tokenizeF fuel r2 l3 c3).map Token.type =
          (tokenizeF fuel r2b l3b c3b).map Token.type
        rw [← hrest]
        exact tokenizeF_types_indep fuel r2 l3 c3 l3b c3b

lemma lexOne_hash (cs : List Char) (l c : Nat) :
    lexOne '#' cs l c = (none, cs, l, c + 1) := by
  unfold lexOne
  rw [if_neg (by simp), if_neg (by simp), if_neg (by simp), if_neg (by simp),
    if_neg (by simp), if_neg (by simp)]
  rfl

lemma tokenize_skip_hash (s : String) :
    (tokenize ("#" ++ s)).map Token.type = (tokenize s).map Token.type := by
  unfold tokenize
  have hlist : ("#" ++ s).toList = '#' :: s.toList := by simp [String.toList]
  rw [hlist]
  have hstep : tokenizeF (('#' :: s.toList).length + 1) ('#' :: s.toList) 1 1 =
      tokenizeF (s.toList.length + 1) s.toList 1 2 := by
    rw [show ('#' :: s.toList).length + 1 = (s.toList.length + 1) + 1 by simp]
    rw [tokenizeF_succ, show ('#' :: s.toList).dropWhile isLexWs = '#' :: s.toList by rfl]
    rw [show (1 : Nat) + (('#' :: s.toList).takeWhile isLexWs).length = 1 by rfl]
    show (match lexOne '#' s.toList 1 1 with
      | (some t, r2, l2, c2) => t :: tokenizeF (s.toList.length + 1) r2 l2 c2
      | (none, r2, l2, c2) => tokenizeF (s.toList.length + 1) r2 l2 c2) =
      tokenizeF (s.toList.length + 1) s.toList 1 2
    rw [lexOne_hash]
  rw [hstep]
  exact tokenizeF_types_indep (s.toList.length + 1) s.toList 1 2 1 1

/-- C7: tokenize is total on every input string and its result always ends
in exactly one EOF token, with no EOF token anywhere earlier; an
unrecognized character such as # is silently skipped and contributes no
token (prepending it leaves the token kind sequence unchanged); and an
unterminated string literal consumes the input to its end without failing,
as on the input consisting of a lone opening quote and abc. -/
theorem c7_tokenize_total (s : String) :
    tokenize s ≠ [] ∧
    (∃ ts l c, tokenize s = ts ++ [⟨.EOF, "", l, c⟩] ∧ ∀ t ∈ ts, t.type ≠ .EOF) ∧
    (tokenize ("#" ++ s)).map Token.type = (tokenize s).map Token.type ∧
    tokenize "\"abc" = [⟨.STRING, "abc", 1, 1⟩, ⟨.EOF, "", 1, 5⟩] := by
  obtain ⟨ts, l2, c2, hts, hne⟩ :=
    tokenizeF_eof_structure (s.toList.length + 1) s.toList 1 1 (by omega)
  have hts2 : tokenize s = ts ++ [⟨.EOF, "", l2, c2⟩] := hts
  refine ⟨?_, ⟨ts, l2, c2, hts2, hne⟩, tokenize_skip_hash s, by decide⟩
  rw [hts2]
  simp

lemma isAlpha_not_isDigit (c : Char) (h : c.isAlpha = true) : c.isDigit = false := by
  simp [Char.isAlpha, Char.isLower, Char.isUpper, Char.isDigit, Char.le_def, UInt32.le_def,
    BitVec.le_def] at h ⊢
  rcases h with ⟨h1, h2⟩ | ⟨h1, h2⟩ <;> omega

lemma takeWhile_append_run {p : Char → Bool} :
    ∀ (v : List Char), (∀ c ∈ v, p c = true) → ∀ (x : Char) (rest : List Char),
      p x = false →
      (v ++ x :: rest).takeWhile p = v ∧ (v ++ x :: rest).dropWhile p = x :: rest
  | [], _, x, rest, hx => by simp [List.takeWhile_cons, List.dropWhile_cons, hx]
  | c :: v, hv, x, rest, hx => by
    have hc : p c = true := hv c (by simp)
    have ih := takeWhile_append_run v (fun d hd => hv d (by simp [hd])) x rest hx
    simp only [List.cons_append, List.takeWhile_cons, List.dropWhile_cons, hc, if_pos]
    exact ⟨by rw [ih.1], by rw [ih.2]⟩

lemma lexOne_newline (rest : List Char) (l c : Nat) :
    lexOne '\n' rest l c = (some ⟨.NEWLINE, "\n", l, c⟩, rest, l + 1, 1) := by
  unfold lexOne
  rw [if_neg (by simp), if_pos rfl]

lemma lexOne_eq2 (rest : List Char) (l c : Nat) :
    lexOne '=' ('=' :: rest) l c = (some ⟨.EQ, "==", l, c⟩, rest, l, c + 2) := by
  unfold lexOne
  rw [if_neg (by simp), if_neg (by simp), if_neg (by simp), if_neg (by simp),
    if_neg (by simp), if_pos (by simp)]
  rfl

lemma lexOne_single (ch : Char) (tt : TokenType) (h : singleTok ch = some tt)
    (rest : List Char) (l c : Nat) (hpk : ch = '=' → rest.head? ≠ some '=') :
    lexOne ch rest l c = (some ⟨tt, [ch].asString, l, c⟩, rest, l, c + 1) := by
  unfold singleTok at h
  split at h <;> cases h
  all_goals
    unfold lexOne
    rw [if_neg (by simp), if_neg (by simp), if_neg (by simp), if_neg (by simp),
      if_neg (by simp),
      if_neg (by
        first
          | (intro hcc
             first
               | exact hpk rfl hcc.2
               | exact hpk rfl hcc)
          | simp)]
    rfl

lemma lexOne_number (ch : Char) (tl rest : List Char) (l c : Nat)
    (hch : ch.isDigit = true ∨ (ch = '.' ∧ (tl.head?.map Char.isDigit).getD false = true))
    (hall : ∀ d ∈ ch :: tl, isNumChar d = true) :
    lexOne ch (tl ++ ' ' :: rest) l c =
      (some ⟨.NUMBER, (ch :: tl).asString, l, c⟩, ' ' :: rest, l,
        c + (ch :: tl).length) := by
  have hchn : isNumChar ch = true := hall ch (by simp)
  have hrun := takeWhile_append_run tl (fun d hd => hall d (by simp [hd])) ' ' rest (by decide)
  unfold lexOne
  rw [if_neg (by rintro ⟨rfl, -⟩; simp [isNumChar] at hchn),
    if_neg (by rintro rfl; simp [isNumChar] at hchn),
    if_neg (by rintro (rfl | rfl) <;> simp [isNumChar] at hchn),
    if_pos (by
      rcases hch with h | ⟨rfl, hd⟩
      · exact Or.inl h
      · refine Or.inr ⟨rfl, ?_⟩
        match tl, hd with
        | d :: tl2, hd => simpa using hd)]
  rw [hrun.1, hrun.2]

lemma lexOne_word (ch : Char) (tl rest : List Char) (l c : Nat)
    (hch : ch.isAlpha = true ∨ ch = '_')
    (hall : ∀ d ∈ ch :: tl, isWordChar d = true) :
    lexOne ch (tl ++ ' ' :: rest) l c =
      (some ⟨keywordType (ch :: tl).asString, (ch :: tl).asString, l, c⟩, ' ' :: rest, l,
        c + (ch :: tl).length) := by
  have hrun := takeWhile_append_run tl (fun d hd => hall d (by simp [hd])) ' ' rest (by decide)
  unfold lexOne
  rw [if_neg (by rintro ⟨rfl, -⟩; rcases hch with h | h <;> simp at h),
    if_neg (by rintro rfl; rcases hch with h | h <;> simp at h),
    if_neg (by rintro (rfl | rfl) <;> rcases hch with h | h <;> simp at h),
    if_neg (by
      rintro (hd | ⟨rfl, -⟩)
      · rcases hch with h | rfl
        · rw [isAlpha_not_isDigit ch h] at hd; exact Bool.false_ne_true hd
        · simp at hd
      · rcases hch with h | h <;> simp at h),
    if_pos hch]
  rw [hrun.1, hrun.2]


/-- The lexical shape of a NUMBER token's value: a nonempty run of digits
and dots whose head is a digit, or a dot followed by a digit. -/
def numShape (v : String) : Prop :=
  (∀ c ∈ v.toList, isNumChar c = true) ∧
  match v.toList with
  | [] => False
  | ch :: tl => ch.isDigit = true ∨ (ch = '.' ∧ (tl.head?.map Char.isDigit).getD false = true)

/-- The lexical shape of an identifier or keyword token's value: a
nonempty run of word characters starting with a letter or underscore. -/
def wordShape (v : String) : Prop :=
  (∀ c ∈ v.toList, isWordChar c = true) ∧
  match v.toList with
  | [] => False
  | ch :: _ => ch.isAlpha = true ∨ ch = '_'

/-- Whether a token type is produced by the identifier branch (an
identifier or one of the keywords). -/
def isWordKind (tt : TokenType) : Bool :=
  match tt with
  | .IDENTIFIER | .LAYER | .INCLUDE | .LAYOUT | .SYSTEM | .GDSII | .AND | .OR
  | .NOT | .INSIDE | .BY | .INTERNAL1 | .INTERNAL2 | .EXTERNAL | .EXTERNAL1
  | .AREA | .DENSITY | .WINDOW | .SINGULAR => true
  | _ => false

/-- Well-formedness of a token produced by the lexer: its value has the
lexical shape its type demands (no constraint for comments and strings,
whose values drop the delimiters). -/
def wfToken (t : Token) : Prop :=
  match t.type with
  | .NEWLINE => t.value = "\n"
  | .EQ => t.value = "=="
  | .LBRACE => t.value = "\x7b"
  | .RBRACE => t.value = "\x7d"
  | .LPAREN => t.value = "("
  | .RPAREN => t.value = ")"
  | .COMMA => t.value = ","
  | .SEMICOLON => t.value = ";"
  | .AT => t.value = "@"
  | .LT => t.value = "<"
  | .GT => t.value = ">"
  | .ASSIGN => t.value = "="
  | .NUMBER => numShape t.value
  | .COMMENT => True
  | .STRING => True
  | .EOF => t.value = ""
  | _ => wordShape t.value ∧ keywordType t.value = t.type

lemma toList_asString (cs : List Char) : cs.asString.toList = cs := rfl

lemma wordShape_cons (v : String) (h : wordShape v) :
    ∃ ch tl, v.toList = ch :: tl ∧ (ch.isAlpha = true ∨ ch = '_') ∧
      ∀ c ∈ v.toList, isWordChar c = true := by
  obtain ⟨hall, hm⟩ := h
  match hv : v.toList with
  | [] => rw [hv] at hm; exact hm.elim
  | ch :: tl =>
    rw [hv] at hm
    exact ⟨ch, tl, rfl, hm, hv ▸ hall⟩

lemma numShape_cons (v : String) (h : numShape v) :
    ∃ ch tl, v.toList = ch :: tl ∧
      (ch.isDigit = true ∨ (ch = '.' ∧ (tl.head?.map Char.isDigit).getD false = true)) ∧
      ∀ c ∈ v.toList, isNumChar c = true := by
  obtain ⟨hall, hm⟩ := h
  match hv : v.toList with
  | [] => rw [hv] at hm; exact hm.elim
  | ch :: tl =>
    rw [hv] at hm
    exact ⟨ch, tl, rfl, hm, hv ▸ hall⟩

lemma isNumChar_not_ws (c : Char) (h : isNumChar c = true) : isLexWs c = false := by
  by_contra hc
  rw [Bool.not_eq_false] at hc
  simp only [isLexWs, Bool.or_eq_true, beq_iff_eq] at hc
  rcases hc with (rfl | rfl) | rfl <;> simp [isNumChar] at h

lemma wordHead_not_ws (c : Char) (h : c.isAlpha = true ∨ c = '_') : isLexWs c = false := by
  by_contra hc
  rw [Bool.not_eq_false] at hc
  simp only [isLexWs, Bool.or_eq_true, beq_iff_eq] at hc
  rcases hc with (rfl | rfl) | rfl <;> rcases h with h | h <;> simp at h

lemma tokenizeF_step (fuel : Nat) (ch : Char) (cs : List Char) (l c : Nat)
    (hws : isLexWs ch = false) (tok : Token) (r2 : List Char) (l2 c2 : Nat)
    (hx : lexOne ch cs l c = (some tok, r2, l2, c2)) :
    tokenizeF (fuel + 1) (ch :: cs) l c = tok :: tokenizeF fuel r2 l2 c2 := by
  rw [tokenizeF_succ]
  rw [show (ch :: cs).dropWhile isLexWs = ch :: cs by simp [List.dropWhile_cons, hws]]
  rw [show (ch :: cs).takeWhile isLexWs = [] by simp [List.takeWhile_cons, hws]]
  show (match lexOne ch cs l (c + 0) with
    | (some t, r2, l2, c2) => t :: tokenizeF fuel r2 l2 c2
    | (none, r2, l2, c2) => tokenizeF fuel r2 l2 c2) = tok :: tokenizeF fuel r2 l2 c2
  rw [show c + 0 = c from rfl, hx]

lemma relex_single (tt : TokenType) (ch : Char) (hst : singleTok ch = some tt)
    (hws : isLexWs ch = false) (rest : List Char) (fuel l c : Nat) :
    ∃ t2 l2 c2, tokenizeF (fuel + 1) ([ch] ++ ' ' :: rest) l c =
      t2 :: tokenizeF fuel (' ' :: rest) l2 c2 ∧ t2.type = tt := by
  refine ⟨⟨tt, [ch].asString, l, c⟩, l, c + 1, ?_, rfl⟩
  exact tokenizeF_step fuel ch (' ' :: rest) l c hws _ _ _ _
    (lexOne_single ch tt hst (' ' :: rest) l c (fun _ h => by simp at h))

lemma relex_newline (rest : List Char) (fuel l c : Nat) :
    ∃ t2 l2 c2, tokenizeF (fuel + 1) (['\n'] ++ ' ' :: rest) l c =
      t2 :: tokenizeF fuel (' ' :: rest) l2 c2 ∧ t2.type = .NEWLINE := by
  refine ⟨⟨.NEWLINE, "\n", l, c⟩, l + 1, 1, ?_, rfl⟩
  exact tokenizeF_step fuel '\n' (' ' :: rest) l c (by decide) _ _ _ _
    (lexOne_newline (' ' :: rest) l c)

lemma relex_eq2 (rest : List Char) (fuel l c : Nat) :
    ∃ t2 l2 c2, tokenizeF (fuel + 1) (['=', '='] ++ ' ' :: rest) l c =
      t2 :: tokenizeF fuel (' ' :: rest) l2 c2 ∧ t2.type = .EQ := by
  refine ⟨⟨.EQ, "==", l, c⟩, l, c + 2, ?_, rfl⟩
  exact tokenizeF_step fuel '=' ('=' :: ' ' :: rest) l c (by decide) _ _ _ _
    (lexOne_eq2 (' ' :: rest) l c)

lemma relex_number (ch : Char) (tl rest : List Char) (fuel l c : Nat)
    (hch : ch.isDigit = true ∨ (ch = '.' ∧ (tl.head?.map Char.isDigit).getD false = true))
    (hall : ∀ d ∈ ch :: tl, isNumChar d = true) :
    ∃ t2 l2 c2, tokenizeF (fuel + 1) ((ch :: tl) ++ ' ' :: rest) l c =
      t2 :: tokenizeF fuel (' ' :: rest) l2 c2 ∧ t2.type = .NUMBER := by
  refine ⟨⟨.NUMBER, (ch :: tl).asString, l, c⟩, l, c + (ch :: tl).length, ?_, rfl⟩
  rw [List.cons_append]
  exact tokenizeF_step fuel ch (tl ++ ' ' :: rest) l c
    (isNumChar_not_ws ch (hall ch (by simp))) _ _ _ _
    (lexOne_number ch tl rest l c hch hall)

lemma relex_word (ch : Char) (tl rest : List Char) (fuel l c : Nat)
    (hch : ch.isAlpha = true ∨ ch = '_')
    (hall : ∀ d ∈ ch :: tl, isWordChar d = true) :
    ∃ t2 l2 c2, tokenizeF (fuel + 1) ((ch :: tl) ++ ' ' :: rest) l c =
      t2 :: tokenizeF fuel (' ' :: rest) l2 c2 ∧
      t2.type = keywordType (ch :: tl).asString := by
  refine ⟨⟨keywordType (ch :: tl).asString, (ch :: tl).asString, l, c⟩, l,
    c + (ch :: tl).length, ?_, rfl⟩
  rw [List.cons_append]
  exact tokenizeF_step fuel ch (tl ++ ' ' :: rest) l c (wordHead_not_ws ch hch) _ _ _ _
    (lexOne_word ch tl rest l c hch hall)

lemma keywordType_isWordKind (v : String) : isWordKind (keywordType v) = true := by
  unfold keywordType
  cases hf : svrfKeywords.find? (fun p => p.1 == v) with
  | none => rfl
  | some p =>
    have hp : p ∈ svrfKeywords := List.mem_of_find?_eq_some hf
    have hall : ∀ q ∈ svrfKeywords, isWordKind q.2 = true := by decide
    simpa using hall p hp

lemma wfToken_word (v : String) (l c : Nat) (hw : wordShape v) :
    wfToken ⟨keywordType v, v, l, c⟩ := by
  have hk := keywordType_isWordKind v
  cases htt : keywordType v
  all_goals first
    | exact ⟨hw, htt⟩
    | (rw [htt] at hk; simp [isWordKind] at hk)

lemma lexOne_wf (ch : Char) (rs : List Char) (l c : Nat) (t : Token)
    (h : (lexOne ch rs l c).1 = some t) : wfToken t := by
  unfold lexOne at h
  by_cases h1 : ch = '/' ∧ rs.head? = some '/'
  · rw [if_pos h1] at h
    injection h with h2
    subst h2
    exact trivial
  rw [if_neg h1] at h
  by_cases h2 : ch = '\n'
  · rw [if_pos h2] at h
    injection h with h2'
    subst h2'
    exact rfl
  rw [if_neg h2] at h
  by_cases h3 : ch = '"' ∨ ch = '\''
  · rw [if_pos h3] at h
    injection h with h2'
    subst h2'
    exact trivial
  rw [if_neg h3] at h
  by_cases h4 : ch.isDigit = true ∨ (ch = '.' ∧ (rs.head?.map Char.isDigit).getD false = true)
  · rw [if_pos h4] at h
    injection h with h2'
    subst h2'
    refine ⟨?_, ?_⟩
    · intro d hd
      rw [toList_asString] at hd
      rcases List.mem_cons.mp hd with rfl | hd2
      · rcases h4 with hdig | ⟨rfl, -⟩
        · simp [isNumChar, hdig]
        · simp [isNumChar]
      · exact List.mem_takeWhile_imp hd2
    · show ch.isDigit = true ∨
        (ch = '.' ∧ (((rs.takeWhile isNumChar).head?.map Char.isDigit).getD false) = true)
      rcases h4 with hdig | ⟨rfl, hpk⟩
      · exact Or.inl hdig
      · refine Or.inr ⟨rfl, ?_⟩
        cases rs with
        | nil => simp at hpk
        | cons d rs2 =>
          simp only [List.head?, Option.map_some', Option.getD_some] at hpk
          rw [List.takeWhile_cons, if_pos (by simp [isNumChar, hpk])]
          simp [hpk]
  rw [if_neg h4] at h
  by_cases h5 : ch.isAlpha = true ∨ ch = '_'
  · rw [if_pos h5] at h
    injection h with h2'
    subst h2'
    refine wfToken_word _ l c ⟨?_, ?_⟩
    · intro d hd
      rw [toList_asString] at hd
      rcases List.mem_cons.mp hd with rfl | hd2
      · rcases h5 with ha | rfl
        · simp [isWordChar, Char.isAlphanum, ha]
        · simp [isWordChar]
      · exact List.mem_takeWhile_imp hd2
    · show ch.isAlpha = true ∨ ch = '_'
      exact h5
  rw [if_neg h5] at h
  by_cases h6 : ch = '=' ∧ rs.head? = some '='
  · rw [if_pos h6] at h
    injection h with h2'
    subst h2'
    exact rfl
  rw [if_neg h6] at h
  match hs : singleTok ch with
  | some tt =>
    rw [hs] at h
    injection h with h2'
    subst h2'
    unfold singleTok at hs
    split at hs <;> cases hs <;> exact rfl
  | none =>
    rw [hs] at h
    exact absurd h (by simp)

lemma tokenizeF_wf : ∀ (fuel : Nat) (cs : List Char) (l c : Nat) (t : Token),
    t ∈ tokenizeF fuel cs l c → wfToken t
  | 0, _, _, _, _, h => absurd h (by simp [tokenizeF])
  | fuel + 1, cs, l, c, t, h => by
    rw [tokenizeF_succ] at h
    match hr : cs.dropWhile isLexWs with
    | [] =>
      rw [hr] at h
      have ht := List.mem_singleton.mp h
      subst ht
      exact rfl
    | ch :: rs =>
      rw [hr] at h
      have h2 : t ∈ (match lexOne ch rs l (c + (cs.takeWhile isLexWs).length) with
        | (some tk, r2, l2, c2) => tk :: tokenizeF fuel r2 l2 c2
        | (none, r2, l2, c2) => tokenizeF fuel r2 l2 c2) := h
      match hx : lexOne ch rs l (c + (cs.takeWhile isLexWs).length) with
      | (some tok, r2, l2, c2) =>
        rw [hx] at h2
        rcases List.mem_cons.mp h2 with rfl | h3
        · exact lexOne_wf _ _ _ _ _ (by rw [hx])
        · exact tokenizeF_wf fuel r2 l2 c2 t h3
      | (none, r2, l2, c2) =>
        rw [hx] at h2
        exact tokenizeF_wf fuel r2 l2 c2 t h2

lemma tokenizeF_ws_skip (fuel : Nat) (rest : List Char) (l c : Nat) :
    tokenizeF fuel (' ' :: rest) l c = tokenizeF fuel rest l (c + 1) := by
  cases fuel with
  | zero => rfl
  | succ f =>
    rw [tokenizeF_succ, tokenizeF_succ]
    rw [show (' ' :: rest).dropWhile isLexWs = rest.dropWhile isLexWs by
      simp [List.dropWhile_cons, show isLexWs ' ' = true from rfl]]
    rw [show (' ' :: rest).takeWhile isLexWs = ' ' :: rest.takeWhile isLexWs by
      simp [List.takeWhile_cons, show isLexWs ' ' = true from rfl]]
    rw [show c + (' ' :: rest.takeWhile isLexWs).length =
      (c + 1) + (rest.takeWhile isLexWs).length by simp [List.length_cons]; omega]

lemma relex_nl_s (v : String) (hv : v = "\n") (rest : List Char) (fuel l c : Nat) :
    ∃ t2 l2 c2, tokenizeF (fuel + 1) (v.toList ++ ' ' :: rest) l c =
      t2 :: tokenizeF fuel (' ' :: rest) l2 c2 ∧ t2.type = .NEWLINE := by
  subst hv
  exact relex_newline rest fuel l c

lemma relex_eq_s (v : String) (hv : v = "==") (rest : List Char) (fuel l c : Nat) :
    ∃ t2 l2 c2, tokenizeF (fuel + 1) (v.toList ++ ' ' :: rest) l c =
      t2 :: tokenizeF fuel (' ' :: rest) l2 c2 ∧ t2.type = .EQ := by
  subst hv
  exact relex_eq2 rest fuel l c

lemma relex_single_s (tt : TokenType) (ch : Char) (hst : singleTok ch = some tt)
    (hws : isLexWs ch = false) (v : String) (hv : v.toList = [ch])
    (rest : List Char) (fuel l c : Nat) :
    ∃ t2 l2 c2, tokenizeF (fuel + 1) (v.toList ++ ' ' :: rest) l c =
      t2 :: tokenizeF fuel (' ' :: rest) l2 c2 ∧ t2.type = tt := by
  rw [hv]
  exact relex_single tt ch hst hws rest fuel l c

lemma relex_number_s (v : String) (hh : numShape v) (rest : List Char) (fuel l c : Nat) :
    ∃ t2 l2 c2, tokenizeF (fuel + 1) (v.toList ++ ' ' :: rest) l c =
      t2 :: tokenizeF fuel (' ' :: rest) l2 c2 ∧ t2.type = .NUMBER := by
  obtain ⟨ch, tl, hv, hch, hall2⟩ := numShape_cons v hh
  rw [hv]
  exact relex_number ch tl rest fuel l c hch (hv ▸ hall2)

lemma relex_word_s (v : String) (tt : TokenType) (hh : wordShape v ∧ keywordType v = tt)
    (rest : List Char) (fuel l c : Nat) :
    ∃ t2 l2 c2, tokenizeF (fuel + 1) (v.toList ++ ' ' :: rest) l c =
      t2 :: tokenizeF fuel (' ' :: rest) l2 c2 ∧ t2.type = tt := by
  obtain ⟨hws2, hkw⟩ := hh
  obtain ⟨ch, tl, hv, hch, hall2⟩ := wordShape_cons v hws2
  rw [hv]
  obtain ⟨t2, l2, c2, hstep, hty⟩ := relex_word ch tl rest fuel l c hch (hv ▸ hall2)
  exact ⟨t2, l2, c2, hstep, by
    rw [hty, show (ch :: tl).asString = v from by rw [← hv, asString_toList], hkw]⟩

lemma relex_one (t : Token) (hwf : wfToken t) (hnc : t.type ≠ .COMMENT)
    (hns : t.type ≠ .STRING) (hne : t.type ≠ .EOF) (rest : List Char) (fuel l c : Nat) :
    ∃ t2 l2 c2, tokenizeF (fuel + 1) (t.value.toList ++ ' ' :: rest) l c =
      t2 :: tokenizeF fuel (' ' :: rest) l2 c2 ∧ t2.type = t.type := by
  obtain ⟨ty, v, ln, col⟩ := t
  cases ty
  case COMMENT => exact absurd rfl hnc
  case STRING => exact absurd rfl hns
  case EOF => exact absurd rfl hne
  case NEWLINE => exact relex_nl_s v hwf rest fuel l c
  case EQ => exact relex_eq_s v hwf rest fuel l c
  case LBRACE =>
    exact relex_single_s .LBRACE '\x7b' (by decide) (by decide) v
      (congrArg String.toList hwf) rest fuel l c
  case RBRACE =>
    exact relex_single_s .RBRACE '\x7d' (by decide) (by decide) v
      (congrArg String.toList hwf) rest fuel l c
  case LPAREN =>
    exact relex_single_s .LPAREN '(' (by decide) (by decide) v
      (congrArg String.toList hwf) rest fuel l c
  case RPAREN =>
    exact relex_single_s .RPAREN ')' (by decide) (by decide) v
      (congrArg String.toList hwf) rest fuel l c
  case COMMA =>
    exact relex_single_s .COMMA ',' (by decide) (by decide) v
      (congrArg String.toList hwf) rest fuel l c
  case SEMICOLON =>
    exact relex_single_s .SEMICOLON ';' (by decide) (by decide) v
      (congrArg String.toList hwf) rest fuel l c
  case AT =>
    exact relex_single_s .AT '@' (by decide) (by decide) v
      (congrArg String.toList hwf) rest fuel l c
  case LT =>
    exact relex_single_s .LT '<' (by decide) (by decide) v
      (congrArg String.toList hwf) rest fuel l c
  case GT =>
    exact relex_single_s .GT '>' (by decide) (by decide) v
      (congrArg String.toList hwf) rest fuel l c
  case ASSIGN =>
    exact relex_single_s .ASSIGN '=' (by decide) (by decide) v
      (congrArg String.toList hwf) rest fuel l c
  case NUMBER => exact relex_number_s v hwf rest fuel l c
  case IDENTIFIER => exact relex_word_s v _ hwf rest fuel l c
  case LAYER => exact relex_word_s v _ hwf rest fuel l c
  case INCLUDE => exact relex_word_s v _ hwf rest fuel l c
  case LAYOUT => exact relex_word_s v _ hwf rest fuel l c
  case SYSTEM => exact relex_word_s v _ hwf rest fuel l c
  case GDSII => exact relex_word_s v _ hwf rest fuel l c
  case AND => exact relex_word_s v _ hwf rest fuel l c
  case OR => exact relex_word_s v _ hwf rest fuel l c
  case NOT => exact relex_word_s v _ hwf rest fuel l c
  case INSIDE => exact relex_word_s v _ hwf rest fuel l c
  case BY => exact relex_word_s v _ hwf rest fuel l c
  case INTERNAL1 => exact relex_word_s v _ hwf rest fuel l c
  case INTERNAL2 => exact relex_word_s v _ hwf rest fuel l c
  case EXTERNAL => exact relex_word_s v _ hwf rest fuel l c
  case EXTERNAL1 => exact relex_word_s v _ hwf rest fuel l c
  case AREA => exact relex_word_s v _ hwf rest fuel l c
  case DENSITY => exact relex_word_s v _ hwf rest fuel l c
  case WINDOW => exact relex_word_s v _ hwf rest fuel l c
  case SINGULAR => exact relex_word_s v _ hwf rest fuel l c

/-- The character stream obtained by emitting each token's value followed
by a single space. -/
def chars8 : List Token → List Char
  | [] => []
  | t :: ts => t.value.toList ++ ' ' :: chars8 ts

/-- Reconstruction of a text from a token list: the token values joined
by single spaces. -/
def reconstruct (ts : List Token) : String := joinWords (ts.map (fun t => t.value))

lemma jwChars_chars8 (e : Token) (he : e.value = "") :
    ∀ ts : List Token, jwChars (((ts ++ [e]).map (fun t => t.value)).map String.toList) =
      chars8 ts
  | [] => by simp [jwChars, chars8, he]
  | [t] => by
    simp only [List.cons_append, List.nil_append, List.map_cons, List.map_nil, jwChars, chars8]
    rw [he]
    rfl
  | t :: t2 :: ts => by
    have ih := jwChars_chars8 e he (t2 :: ts)
    simp only [List.cons_append, List.map_cons, jwChars, chars8] at ih ⊢
    exact congrArg (fun x => t.value.toList ++ ' ' :: x) ih

lemma reconstruct_toList (ts : List Token) (e : Token) (he : e.value = "") :
    (reconstruct (ts ++ [e])).toList = chars8 ts := by
  unfold reconstruct
  rw [joinWords_toList]
  exact jwChars_chars8 e he ts

lemma relex_list : ∀ (ts : List Token) (fuel l c : Nat),
    (chars8 ts).length < fuel →
    (∀ t ∈ ts, wfToken t ∧ t.type ≠ .COMMENT ∧ t.type ≠ .STRING ∧ t.type ≠ .EOF) →
    (tokenizeF fuel (chars8 ts) l c).map Token.type = ts.map Token.type ++ [.EOF]
  | [], 0, _, _, hf, _ => absurd hf (Nat.not_lt_zero _)
  | [], fuel + 1, l, c, _, _ => rfl
  | t :: ts', 0, _, _, hf, _ => absurd hf (Nat.not_lt_zero _)
  | t :: ts', fuel + 1, l, c, hf, hall => by
    obtain ⟨hwf, hnc, hns, hne⟩ := hall t (by simp)
    have hfl : (chars8 ts').length < fuel := by
      simp only [chars8, List.length_append, List.length_cons] at hf
      omega
    obtain ⟨t2, l2, c2, hstep, hty⟩ := relex_one t hwf hnc hns hne (chars8 ts') fuel l c
    rw [show chars8 (t :: ts') = t.value.toList ++ ' ' :: chars8 ts' from rfl]
    rw [hstep, List.map_cons, hty, tokenizeF_ws_skip]
    rw [tokenizeF_types_indep fuel (chars8 ts') l2 (c2 + 1) l c]
    rw [relex_list ts' fuel l c hfl (fun u hu => hall u (List.mem_cons_of_mem _ hu))]
    simp

/-- C8 (counterexample): re-tokenizing the reconstruction does NOT always
preserve the token kind sequence.  On the input "// hi" the lexer emits a
COMMENT token whose value drops the "//" delimiter and strips the
surrounding whitespace, so the reconstruction " hi" re-tokenizes to an
IDENTIFIER token, not a COMMENT token. -/
theorem c8_retokenize_cex :
    (tokenize (reconstruct (tokenize "// hi"))).map Token.type ≠
      (tokenize "// hi").map Token.type := by decide

/-- C8 (amended): for every input whose token stream contains no COMMENT
and no STRING token (the two kinds whose values drop their delimiters),
joining the token values with single spaces and re-tokenizing the
reconstruction yields exactly the original token kind sequence. -/
theorem c8_retokenize_amended (s : String)
    (h : ∀ t ∈ tokenize s, t.type ≠ .COMMENT ∧ t.type ≠ .STRING) :
    (tokenize (reconstruct (tokenize s))).map Token.type = (tokenize s).map Token.type := by
  obtain ⟨ts, l2, c2, heq, hne⟩ :=
    tokenizeF_eof_structure (s.toList.length + 1) s.toList 1 1 (by omega)
  have heq' : tokenize s = ts ++ [⟨.EOF, "", l2, c2⟩] := heq
  have hcond : ∀ t ∈ ts, wfToken t ∧ t.type ≠ .COMMENT ∧ t.type ≠ .STRING ∧
      t.type ≠ .EOF := by
    intro t ht
    have hmem : t ∈ tokenize s := by
      rw [heq']
      exact List.mem_append_left _ ht
    obtain ⟨hc1, hc2⟩ := h t hmem
    exact ⟨tokenizeF_wf _ _ _ _ t hmem, hc1, hc2, hne t ht⟩
  have hrec : (reconstruct (tokenize s)).toList = chars8 ts := by
    rw [heq']
    exact reconstruct_toList ts ⟨.EOF, "", l2, c2⟩ rfl
  have hL : (tokenize (reconstruct (tokenize s))).map Token.type =
      ts.map Token.type ++ [.EOF] := by
    show (tokenizeF ((reconstruct (tokenize s)).toList.length + 1)
      (reconstruct (tokenize s)).toList 1 1).map Token.type = _
    rw [hrec]
    exact relex_list ts ((chars8 ts).length + 1) 1 1 (by omega) hcond
  have hR : (tokenize s).map Token.type = ts.map Token.type ++ [.EOF] := by
    rw [heq']
    simp
  rw [hL, hR]

/-- C8 witness: a concrete comment-free and string-free input on which the
amended round-trip theorem applies. -/
theorem c8_retokenize_amended_witness :
    (∀ t ∈ tokenize "LAYER M1 42\nX = A AND B", t.type ≠ .COMMENT ∧ t.type ≠ .STRING) ∧
    (tokenize (reconstruct (tokenize "LAYER M1 42\nX = A AND B"))).map Token.type =
      (tokenize "LAYER M1 42\nX = A AND B").map Token.type :=
  ⟨by decide, c8_retokenize_amended "LAYER M1 42\nX = A AND B" (by decide)⟩

/-! ### The structural token parser: SVRFParser of svrf_drc_parser.py
(lines 277-521).

State-passing embedding: the parser object's mutable fields become the
record `PState`; every `while` loop becomes a fuel-consuming function
whose guard is checked before fuel is spent, so `none` means the loop
still runs when the fuel is exhausted, i.e. (fuel being arbitrary)
non-termination of the Python loop; `none` is also produced by an
uncaught ValueError from float() on a malformed NUMBER token, which
likewise aborts parse() without a ParseResult. -/

/-- LayerDefinition records (svrf_drc_parser.py lines 30-36). -/
structure LayerDefinition where
  name : String
  gds_layer : Option Int
  expression : Option String
  line : Nat
deriving DecidableEq

/-- DRCRule records of svrf_drc_parser.py (lines 38-47); additional_params
is the dict keyed by parameter names (values all True), window_params its
"window" entry. -/
structure PDRCRule where
  name : String
  description : String
  rule_type : String
  layer : String
  constraint : String
  value : ℚ
  line : Nat
  additional_params : List String
  window_params : Option (List ℚ)
deriving DecidableEq

/-- The parser state (SVRFParser.__init__, lines 280-290); current_token
is always tokens[pos] (none only for an empty token list). -/
structure PState where
  tokens : List Token
  pos : Nat
  layers : List LayerDefinition
  rules : List PDRCRule
  includes : List String
  errors : List String
  warnings : List String
deriving DecidableEq

/-- current_token: tokens[pos] if tokens else None. -/
def curTok (st : PState) : Option Token := st.tokens[st.pos]?

/-- advance (lines 292-295): moves only while pos < len(tokens)-1, so it
saturates at the last token. -/
def advanceP (st : PState) : PState :=
  if st.pos + 1 < st.tokens.length then { st with pos := st.pos + 1 } else st

/-- peek (lines 297-301) with the default offset 1. -/
def peekTok (st : PState) : Option Token := st.tokens[st.pos + 1]?

/-- Truthiness-and-type test `current_token and current_token.type == tt`. -/
def tokIs (o : Option Token) (tt : TokenType) : Bool :=
  match o with
  | some t => t.type == tt
  | none => false

/-- Guard `current_token and current_token.type not in tts`. -/
def tokNotMem (o : Option Token) (tts : List TokenType) : Bool :=
  match o with
  | some t => !(tts.contains t.type)
  | none => false

/-- Python int(float(v)) on a nonnegative or negative rational: truncation
toward zero. -/
def intTrunc (q : ℚ) : Int := if q < 0 then -((-q).floor) else q.floor

/-- skip_newlines (lines 310-312). -/
def skip_newlinesF : Nat → PState → Option PState
  | fuel, st =>
    if tokIs (curTok st) .NEWLINE then
      match fuel with
      | 0 => none
      | f + 1 => skip_newlinesF f (advanceP st)
    else some st

/-- skip_comments (lines 314-316). -/
def skip_commentsF : Nat → PState → Option PState
  | fuel, st =>
    if tokIs (curTok st) .COMMENT then
      match fuel with
      | 0 => none
      | f + 1 => skip_commentsF f (advanceP st)
    else some st

/-- parse_include (lines 318-322). -/
def parse_includeF (st : PState) : PState :=
  let st1 := advanceP st
  match curTok st1 with
  | some t =>
    if t.type = .STRING then advanceP { st1 with includes := st1.includes ++ [t.value] }
    else st1
  | none => st1

/-- The collection loop of parse_layer_expression (lines 344-352),
accumulating the value of every token before the first NEWLINE, EOF or
LBRACE. -/
def pl_exprF : Nat → PState → List String → Option (List String × PState)
  | fuel, st, acc =>
    if tokNotMem (curTok st) [.NEWLINE, .EOF, .LBRACE] then
      match fuel with
      | 0 => none
      | f + 1 =>
        pl_exprF f (advanceP st)
          (acc ++ [match curTok st with | some t => t.value | none => ""])
    else some (acc, st)

/-- The shared tail of both derived-layer actions (lines 339-341 and
363-366): join the collected parts with single spaces and append the
expression Layer record. -/
def layerExprFinishF (name : String) (layer_line : Nat)
    (o : Option (List String × PState)) : Option PState :=
  match o with
  | some (parts, st3) =>
    some { st3 with layers := st3.layers ++
      [⟨name, none, some (joinWords parts), layer_line⟩] }
  | none => none

/-- parse_layer_definition (lines 323-342).  The caller dispatches on a
LAYER token, so curTok st is some; layer_line defaults to 0 in the
unreachable none branch. -/
def parse_layer_definitionF (fuel : Nat) (st : PState) : Option PState :=
  let layer_line := match curTok st with | some t => t.line | none => 0
  let st1 := advanceP st
  match curTok st1 with
  | some t =>
    if t.type = .IDENTIFIER then
      let name := t.value
      let st2 := advanceP st1
      match curTok st2 with
      | some t2 =>
        if t2.type = .NUMBER then
          match pyFloat t2.value with
          | some q =>
            some (advanceP { st2 with layers := st2.layers ++
              [⟨name, some (intTrunc q), none, layer_line⟩] })
          | none => none
        else if t2.type = .ASSIGN then
          layerExprFinishF name layer_line (pl_exprF fuel (advanceP st2) [])
        else some st2
      | none => some st2
    else
      some { st1 with errors := st1.errors ++
        ["Expected layer name at line " ++ toString layer_line] }
  | none =>
    some { st1 with errors := st1.errors ++
      ["Expected layer name at line " ++ toString layer_line] }

/-- parse_derived_layer (lines 354-366). -/
def parse_derived_layerF (fuel : Nat) (st : PState) : Option PState :=
  match curTok st with
  | some t =>
    if t.type = .IDENTIFIER then
      let name := t.value
      let layer_line := t.line
      let st1 := advanceP st
      if tokIs (curTok st1) .ASSIGN then
        layerExprFinishF name layer_line (pl_exprF fuel (advanceP st1) [])
      else some st1
    else some st
  | none => some st

/-- The LAYOUT-skipping loop of parse (lines 497-500). -/
def layoutSkipF : Nat → PState → Option PState
  | fuel, st =>
    if tokNotMem (curTok st) [.NEWLINE, .EOF] then
      match fuel with
      | 0 => none
      | f + 1 => layoutSkipF f (advanceP st)
    else some st

/-- The additional-parameters loop of the INTERNAL/EXTERNAL rule branch
(lines 420-426): note that a token that is neither RBRACE, NEWLINE nor
IDENTIFIER leaves the state unchanged, so the loop spins forever on it. -/
def paramsLoopF : Nat → PState → List String → Option (List String × PState)
  | fuel, st, acc =>
    if tokNotMem (curTok st) [.RBRACE, .NEWLINE] then
      match fuel with
      | 0 => none
      | f + 1 =>
        if tokIs (curTok st) .IDENTIFIER then
          paramsLoopF f (advanceP st)
            (acc ++ [match curTok st with | some t => t.value | none => ""])
        else paramsLoopF f st acc
    else some (acc, st)

/-- The window-dimension loop of the DENSITY branch (lines 445-450). -/
def windowLoopF : Nat → PState → List ℚ → Option (List ℚ × PState)
  | fuel, st, acc =>
    if tokIs (curTok st) .NUMBER && decide (acc.length < 2) then
      match fuel with
      | 0 => none
      | f + 1 =>
        match curTok st with
        | some t =>
          match pyFloat t.value with
          | some q => windowLoopF f (advanceP st) (acc ++ [q])
          | none => none
        | none => none
    else some (acc, st)

/-- The optional layer step `if current is IDENTIFIER: layer = value;
advance` shared by the three rule-type branches. -/
def optLayerF (st : PState) : String × PState :=
  match curTok st with
  | some t => if t.type = .IDENTIFIER then (t.value, advanceP st) else ("", st)
  | none => ("", st)

/-- The optional constraint step over the branch's comparison token set. -/
def optConstraintF (tts : List TokenType) (st : PState) : String × PState :=
  match curTok st with
  | some t => if tts.contains t.type then (t.value, advanceP st) else ("", st)
  | none => ("", st)

/-- The optional value step `if current is NUMBER: value = float(value);
advance`; none models the ValueError of float(). -/
def optValueF (st : PState) : Option (ℚ × PState) :=
  match curTok st with
  | some t =>
    if t.type = .NUMBER then
      match pyFloat t.value with
      | some q => some (q, advanceP st)
      | none => none
    else some ((0 : ℚ), st)
  | none => some ((0 : ℚ), st)

/-- The description step of parse_drc_rule (lines 385-391). -/
def descParseF (st : PState) : String × PState :=
  match curTok st with
  | some t =>
    if t.type = .AT then
      let st1 := advanceP st
      match curTok st1 with
      | some t2 => if t2.type = .STRING then (t2.value, advanceP st1) else ("", st1)
      | none => ("", st1)
    else ("", st)
  | none => ("", st)

/-- The rule-body dispatch of parse_drc_rule (lines 395-456): returns
(rule_type, layer, constraint, value, params, window, state). -/
def ruleBodyF (fuel : Nat) (st : PState) :
    Option (String × String × String × ℚ × List String × Option (List ℚ) × PState) :=
  match curTok st with
  | none => some ("", "", "", 0, [], none, st)
  | some tb =>
    let rule_type := tb.value
    let st1 := advanceP st
    if rule_type = "INTERNAL1" ∨ rule_type = "INTERNAL2" ∨ rule_type = "EXTERNAL" ∨
        rule_type = "EXTERNAL1" then
      let lp := optLayerF st1
      let cp := optConstraintF [.LT, .GT, .EQ] lp.2
      match optValueF cp.2 with
      | none => none
      | some vp =>
        match paramsLoopF fuel vp.2 [] with
        | none => none
        | some pp => some (rule_type, lp.1, cp.1, vp.1, pp.1, none, pp.2)
    else if rule_type = "AREA" then
      let lp := optLayerF st1
      let cp := optConstraintF [.LT, .GT] lp.2
      match optValueF cp.2 with
      | none => none
      | some vp => some (rule_type, lp.1, cp.1, vp.1, [], none, vp.2)
    else if rule_type = "DENSITY" then
      let lp := optLayerF st1
      match (if tokIs (curTok lp.2) .WINDOW then
               (windowLoopF fuel (advanceP lp.2) []).map (fun wp => (some wp.1, wp.2))
             else some (none, lp.2)) with
      | none => none
      | some wq =>
        let cp := optConstraintF [.LT, .GT] wq.2
        match optValueF cp.2 with
        | none => none
        | some vp => some (rule_type, lp.1, cp.1, vp.1, [], wq.1, vp.2)
    else some (rule_type, "", "", 0, [], none, st1)

/-- The skip-to-closing-brace loop of parse_drc_rule (lines 465-466). -/
def skipRbraceF : Nat → PState → Option PState
  | fuel, st =>
    if tokNotMem (curTok st) [.RBRACE] then
      match fuel with
      | 0 => none
      | f + 1 => skipRbraceF f (advanceP st)
    else some st

/-- The tail of parse_drc_rule after the skip loop (lines 468-481):
consume the RBRACE if present and append the rule record. -/
def ruleFinishF (rule_name : String) (rule_line : Nat)
    (description rule_type layer constraint : String) (value : ℚ)
    (ps : List String) (win : Option (List ℚ)) (st : PState) : Option PState :=
  let stF := if tokIs (curTok st) .RBRACE then advanceP st else st
  some { stF with rules := stF.rules ++
    [⟨rule_name, description, rule_type, layer, constraint, value, rule_line, ps, win⟩] }

/-- parse_drc_rule (lines 368-481). -/
def parse_drc_ruleF (fuel : Nat) (st : PState) : Option PState :=
  match curTok st with
  | none => some (advanceP st)
  | some t0 =>
    if t0.type = .IDENTIFIER then
      let rule_name := t0.value
      let rule_line := t0.line
      let st1 := advanceP st
      if tokIs (curTok st1) .LBRACE then
        let st2 := advanceP st1
        match skip_newlinesF fuel st2 with
        | none => none
        | some st3 =>
          match skip_commentsF fuel st3 with
          | none => none
          | some st4 =>
            let dp := descParseF st4
            match skip_newlinesF fuel dp.2 with
            | none => none
            | some st6 =>
              match ruleBodyF fuel st6 with
              | none => none
              | some (rty, layer, constr, value, ps, win, st7) =>
                match skipRbraceF fuel st7 with
                | none => none
                | some st8 =>
                  ruleFinishF rule_name rule_line dp.1 rty layer constr value ps win st8
      else some st1
    else some (advanceP st)

/-- The main parse loop (lines 483-514); one unit of fuel per iteration,
the inner loops drawing from the same budget. -/
def parseLoopF : Nat → PState → Option PState
  | fuel, st =>
    match curTok st with
    | none => some st
    | some t =>
      if t.type = .EOF then some st
      else
        match fuel with
        | 0 => none
        | f + 1 =>
          match skip_newlinesF f st with
          | none => none
          | some st1 =>
            match skip_commentsF f st1 with
            | none => none
            | some st2 =>
              match curTok st2 with
              | none => some st2
              | some t2 =>
                if t2.type = .EOF then some st2
                else if t2.type = .INCLUDE then parseLoopF f (parse_includeF st2)
                else if t2.type = .LAYER then
                  match parse_layer_definitionF f st2 with
                  | none => none
                  | some st3 => parseLoopF f st3
                else if t2.type = .LAYOUT then
                  match layoutSkipF f st2 with
                  | none => none
                  | some st3 => parseLoopF f st3
                else if t2.type = .IDENTIFIER then
                  match peekTok st2 with
                  | some nt =>
                    if nt.type = .ASSIGN then
                      match parse_derived_layerF f st2 with
                      | none => none
                      | some st3 => parseLoopF f st3
                    else if nt.type = .LBRACE then
                      match parse_drc_ruleF f st2 with
                      | none => none
                      | some st3 => parseLoopF f st3
                    else parseLoopF f (advanceP st2)
                  | none => parseLoopF f (advanceP st2)
                else parseLoopF f (advanceP st2)

/-- The initial parser state over a token list (lines 280-290). -/
def initPState (tokens : List Token) : PState := ⟨tokens, 0, [], [], [], [], []⟩

/-- Lex-then-parse entry point: SVRFParser(SVRFLexer(s).tokenize()).parse(). -/
def parseSVRF (fuel : Nat) (s : String) : Option PState :=
  parseLoopF fuel (initPState (tokenize s))

lemma skip_newlinesF_noop (f : Nat) (st : PState)
    (h : tokIs (curTok st) .NEWLINE = false) : skip_newlinesF f st = some st := by
  conv_lhs => rw [skip_newlinesF.eq_def]
  dsimp only
  rw [h]
  rfl

lemma skip_commentsF_noop (f : Nat) (st : PState)
    (h : tokIs (curTok st) .COMMENT = false) : skip_commentsF f st = some st := by
  conv_lhs => rw [skip_commentsF.eq_def]
  dsimp only
  rw [h]
  rfl

lemma pl_exprF_stop (f : Nat) (st : PState) (acc : List String)
    (h : tokNotMem (curTok st) [.NEWLINE, .EOF, .LBRACE] = false) :
    pl_exprF f st acc = some (acc, st) := by
  conv_lhs => rw [pl_exprF.eq_def]
  dsimp only
  rw [h]
  rfl

lemma pl_exprF_zero (st : PState) (acc : List String)
    (h : tokNotMem (curTok st) [.NEWLINE, .EOF, .LBRACE] = true) :
    pl_exprF 0 st acc = none := by
  conv_lhs => rw [pl_exprF]
  rw [h]
  rfl

lemma pl_exprF_go (f : Nat) (st : PState) (acc : List String)
    (h : tokNotMem (curTok st) [.NEWLINE, .EOF, .LBRACE] = true) :
    pl_exprF (f + 1) st acc =
      pl_exprF f (advanceP st)
        (acc ++ [match curTok st with | some t => t.value | none => ""]) := by
  conv_lhs => rw [pl_exprF]
  rw [h]
  rfl

lemma skipRbraceF_stuck : ∀ f : Nat,
    skipRbraceF f ⟨[⟨.IDENTIFIER, "FOO", 1, 1⟩, ⟨.LBRACE, "\x7b", 1, 5⟩,
      ⟨.EOF, "", 1, 6⟩], 2, [], [], [], [], []⟩ = none
  | 0 => by decide
  | f + 1 => skipRbraceF_stuck f

/-- C3: the claimed termination property of the structural parser is
FALSE.  On the input "FOO \x7b" (a rule header whose closing brace is
missing) the skip-to-closing-brace loop of parse_drc_rule
(svrf_drc_parser.py lines 465-466) runs with current_token stuck at the
saturated EOF position, because advance() no longer moves at the last
token; the loop body consumes nothing and never reaches an RBRACE, so
parse() never returns no matter the fuel. -/
theorem c3_parse_progress_refuted (fuel : Nat) :
    parseSVRF fuel "FOO \x7b" = none := by
  have htok : tokenize "FOO \x7b" =
      [⟨.IDENTIFIER, "FOO", 1, 1⟩, ⟨.LBRACE, "\x7b", 1, 5⟩, ⟨.EOF, "", 1, 6⟩] := by decide
  unfold parseSVRF initPState
  rw [htok]
  cases fuel with
  | zero => decide
  | succ f =>
    have hnl : ∀ g : Nat, skip_newlinesF g ⟨[⟨.IDENTIFIER, "FOO", 1, 1⟩,
        ⟨.LBRACE, "\x7b", 1, 5⟩, ⟨.EOF, "", 1, 6⟩], 2, [], [], [], [], []⟩ =
        some ⟨[⟨.IDENTIFIER, "FOO", 1, 1⟩, ⟨.LBRACE, "\x7b", 1, 5⟩,
          ⟨.EOF, "", 1, 6⟩], 2, [], [], [], [], []⟩ :=
      fun g => skip_newlinesF_noop g _ (by decide)
    have hcm : ∀ g : Nat, skip_commentsF g ⟨[⟨.IDENTIFIER, "FOO", 1, 1⟩,
        ⟨.LBRACE, "\x7b", 1, 5⟩, ⟨.EOF, "", 1, 6⟩], 2, [], [], [], [], []⟩ =
        some ⟨[⟨.IDENTIFIER, "FOO", 1, 1⟩, ⟨.LBRACE, "\x7b", 1, 5⟩,
          ⟨.EOF, "", 1, 6⟩], 2, [], [], [], [], []⟩ :=
      fun g => skip_commentsF_noop g _ (by decide)
    have hnl0 : ∀ g : Nat, skip_newlinesF g ⟨[⟨.IDENTIFIER, "FOO", 1, 1⟩,
        ⟨.LBRACE, "\x7b", 1, 5⟩, ⟨.EOF, "", 1, 6⟩], 0, [], [], [], [], []⟩ =
        some ⟨[⟨.IDENTIFIER, "FOO", 1, 1⟩, ⟨.LBRACE, "\x7b", 1, 5⟩,
          ⟨.EOF, "", 1, 6⟩], 0, [], [], [], [], []⟩ :=
      fun g => skip_newlinesF_noop g _ (by decide)
    have hcm0 : ∀ g : Nat, skip_commentsF g ⟨[⟨.IDENTIFIER, "FOO", 1, 1⟩,
        ⟨.LBRACE, "\x7b", 1, 5⟩, ⟨.EOF, "", 1, 6⟩], 0, [], [], [], [], []⟩ =
        some ⟨[⟨.IDENTIFIER, "FOO", 1, 1⟩, ⟨.LBRACE, "\x7b", 1, 5⟩,
          ⟨.EOF, "", 1, 6⟩], 0, [], [], [], [], []⟩ :=
      fun g => skip_commentsF_noop g _ (by decide)
    have hd : parse_drc_ruleF f ⟨[⟨.IDENTIFIER, "FOO", 1, 1⟩, ⟨.LBRACE, "\x7b", 1, 5⟩,
        ⟨.EOF, "", 1, 6⟩], 0, [], [], [], [], []⟩ = none := by
      norm_num [parse_drc_ruleF, curTok, advanceP, tokIs, descParseF, ruleBodyF,
        optLayerF, optConstraintF, optValueF, hnl, hcm, skipRbraceF_stuck]
      simp +decide [hnl, hcm, skipRbraceF_stuck]
    conv_lhs => rw [parseLoopF]
    norm_num [curTok, advanceP, tokIs, peekTok, hnl0, hcm0, hd]
    simp +decide [hnl0, hcm0, hd]

lemma curTok_offset (p rest : List Token) (k : Nat) (L : List LayerDefinition)
    (R : List PDRCRule) (I E W : List String) :
    curTok ⟨p ++ rest, p.length + k, L, R, I, E, W⟩ = rest[k]? := by
  show (p ++ rest)[p.length + k]? = rest[k]?
  rw [List.getElem?_append_right (by omega)]
  congr 1
  omega

lemma advanceP_offset (p rest : List Token) (k : Nat) (L : List LayerDefinition)
    (R : List PDRCRule) (I E W : List String) :
    advanceP ⟨p ++ rest, p.length + k, L, R, I, E, W⟩ =
      ⟨p ++ rest, p.length + (if k + 1 < rest.length then k + 1 else k), L, R, I, E, W⟩ := by
  unfold advanceP
  show (if p.length + k + 1 < (p ++ rest).length then
      (⟨p ++ rest, p.length + k + 1, L, R, I, E, W⟩ : PState)
    else ⟨p ++ rest, p.length + k, L, R, I, E, W⟩) =
    ⟨p ++ rest, p.length + (if k + 1 < rest.length then k + 1 else k), L, R, I, E, W⟩
  by_cases hlt : k + 1 < rest.length
  · rw [if_pos (show p.length + k + 1 < (p ++ rest).length by
      rw [List.length_append]; omega), if_pos hlt, Nat.add_assoc]
  · rw [if_neg (show ¬(p.length + k + 1 < (p ++ rest).length) by
      rw [List.length_append]; omega), if_neg hlt]

/-- The expression-collection loop behaves identically on two states that
agree on the token suffix from the current position on: it collects the
same parts and stops at the same offset (or runs out of fuel on both). -/
lemma pl_exprF_bisim :
    ∀ (f : Nat) (rest : List Token) (k : Nat), k < rest.length →
    ∀ (acc : List String) (p1 p2 : List Token) (L1 L2 : List LayerDefinition)
      (R1 R2 : List PDRCRule) (I1 I2 E1 E2 W1 W2 : List String),
    (pl_exprF f ⟨p1 ++ rest, p1.length + k, L1, R1, I1, E1, W1⟩ acc = none ∧
     pl_exprF f ⟨p2 ++ rest, p2.length + k, L2, R2, I2, E2, W2⟩ acc = none) ∨
    (∃ a k2, k2 < rest.length ∧
      pl_exprF f ⟨p1 ++ rest, p1.length + k, L1, R1, I1, E1, W1⟩ acc =
        some (a, ⟨p1 ++ rest, p1.length + k2, L1, R1, I1, E1, W1⟩) ∧
      pl_exprF f ⟨p2 ++ rest, p2.length + k, L2, R2, I2, E2, W2⟩ acc =
        some (a, ⟨p2 ++ rest, p2.length + k2, L2, R2, I2, E2, W2⟩))
  | 0, rest, k, hk, acc, p1, p2, L1, L2, R1, R2, I1, I2, E1, E2, W1, W2 => by
    have hc1 := curTok_offset p1 rest k L1 R1 I1 E1 W1
    have hc2 := curTok_offset p2 rest k L2 R2 I2 E2 W2
    cases hg : tokNotMem rest[k]? [.NEWLINE, .EOF, .LBRACE] with
    | false =>
      exact Or.inr ⟨acc, k, hk,
        pl_exprF_stop 0 _ acc (by rw [hc1]; exact hg),
        pl_exprF_stop 0 _ acc (by rw [hc2]; exact hg)⟩
    | true =>
      exact Or.inl ⟨pl_exprF_zero _ acc (by rw [hc1]; exact hg),
        pl_exprF_zero _ acc (by rw [hc2]; exact hg)⟩
  | f + 1, rest, k, hk, acc, p1, p2, L1, L2, R1, R2, I1, I2, E1, E2, W1, W2 => by
    have hc1 := curTok_offset p1 rest k L1 R1 I1 E1 W1
    have hc2 := curTok_offset p2 rest k L2 R2 I2 E2 W2
    cases hg : tokNotMem rest[k]? [.NEWLINE, .EOF, .LBRACE] with
    | false =>
      exact Or.inr ⟨acc, k, hk,
        pl_exprF_stop _ _ acc (by rw [hc1]; exact hg),
        pl_exprF_stop _ _ acc (by rw [hc2]; exact hg)⟩
    | true =>
      match ht : rest[k]? with
      | none => rw [ht] at hg; exact absurd hg (by simp [tokNotMem])
      | some t =>
        have hstep1 : pl_exprF (f + 1) ⟨p1 ++ rest, p1.length + k, L1, R1, I1, E1, W1⟩ acc =
            pl_exprF f (advanceP ⟨p1 ++ rest, p1.length + k, L1, R1, I1, E1, W1⟩)
              (acc ++ [t.value]) := by
          rw [pl_exprF_go f _ acc (by rw [hc1, ht]; rw [ht] at hg; exact hg), hc1, ht]
        have hstep2 : pl_exprF (f + 1) ⟨p2 ++ rest, p2.length + k, L2, R2, I2, E2, W2⟩ acc =
            pl_exprF f (advanceP ⟨p2 ++ rest, p2.length + k, L2, R2, I2, E2, W2⟩)
              (acc ++ [t.value]) := by
          rw [pl_exprF_go f _ acc (by rw [hc2, ht]; rw [ht] at hg; exact hg), hc2, ht]
        by_cases hlt : k + 1 < rest.length
        · have hadv1 : advanceP ⟨p1 ++ rest, p1.length + k, L1, R1, I1, E1, W1⟩ =
              ⟨p1 ++ rest, p1.length + (k + 1), L1, R1, I1, E1, W1⟩ := by
            rw [advanceP_offset, if_pos hlt]
          have hadv2 : advanceP ⟨p2 ++ rest, p2.length + k, L2, R2, I2, E2, W2⟩ =
              ⟨p2 ++ rest, p2.length + (k + 1), L2, R2, I2, E2, W2⟩ := by
            rw [advanceP_offset, if_pos hlt]
          rcases pl_exprF_bisim f rest (k + 1) hlt (acc ++ [t.value]) p1 p2 L1 L2 R1 R2
              I1 I2 E1 E2 W1 W2 with ⟨n1, n2⟩ | ⟨a, k2, hk2, e1, e2⟩
          · exact Or.inl ⟨by rw [hstep1, hadv1, n1], by rw [hstep2, hadv2, n2]⟩
          · exact Or.inr ⟨a, k2, hk2, by rw [hstep1, hadv1, e1], by rw [hstep2, hadv2, e2]⟩
        · have hadv1 : advanceP ⟨p1 ++ rest, p1.length + k, L1, R1, I1, E1, W1⟩ =
              ⟨p1 ++ rest, p1.length + k, L1, R1, I1, E1, W1⟩ := by
            rw [advanceP_offset, if_neg hlt]
          have hadv2 : advanceP ⟨p2 ++ rest, p2.length + k, L2, R2, I2, E2, W2⟩ =
              ⟨p2 ++ rest, p2.length + k, L2, R2, I2, E2, W2⟩ := by
            rw [advanceP_offset, if_neg hlt]
          rcases pl_exprF_bisim f rest k hk (acc ++ [t.value]) p1 p2 L1 L2 R1 R2
              I1 I2 E1 E2 W1 W2 with ⟨n1, n2⟩ | ⟨a, k2, hk2, e1, e2⟩
          · exact Or.inl ⟨by rw [hstep1, hadv1, n1], by rw [hstep2, hadv2, n2]⟩
          · exact Or.inr ⟨a, k2, hk2, by rw [hstep1, hadv1, e1], by rw [hstep2, hadv2, e2]⟩

lemma parse_derived_eq (f : Nat) (st : PState) (nt aT : Token)
    (h0 : curTok st = some nt) (hid : nt.type = .IDENTIFIER)
    (h1 : curTok (advanceP st) = some aT) (ha : aT.type = .ASSIGN) :
    parse_derived_layerF f st =
      layerExprFinishF nt.value nt.line (pl_exprF f (advanceP (advanceP st)) []) := by
  simp only [parse_derived_layerF, h0]
  rw [if_pos hid]
  simp only [tokIs, h1, ha, beq_self_eq_true, if_true]

lemma parse_layer_def_eq (f : Nat) (st : PState) (lt nt aT : Token)
    (h0 : curTok st = some lt)
    (h1 : curTok (advanceP st) = some nt) (hid : nt.type = .IDENTIFIER)
    (h2 : curTok (advanceP (advanceP st)) = some aT) (hnum : aT.type ≠ .NUMBER)
    (ha : aT.type = .ASSIGN) :
    parse_layer_definitionF f st =
      layerExprFinishF nt.value lt.line
        (pl_exprF f (advanceP (advanceP (advanceP st))) []) := by
  simp only [parse_layer_definitionF, h0, h1]
  rw [if_pos hid]
  simp only [h2]
  rw [if_neg hnum, if_pos ha]

lemma adv_step (toks : List Token) (i j : Nat) (L : List LayerDefinition)
    (R : List PDRCRule) (I E W : List String) (h : i + 1 < toks.length)
    (hj : i + 1 = j) :
    advanceP ⟨toks, i, L, R, I, E, W⟩ = ⟨toks, j, L, R, I, E, W⟩ := by
  subst hj
  unfold advanceP
  rw [if_pos h]

/-- C5: the two surface forms of a derived-layer statement are two entry
points to one semantic action.  For a token stream
LAYER name = tok ... (parsed by parse_layer_definition, dispatched on the
LAYER keyword) and the bare stream name = tok ... (parsed by
parse_derived_layer), over the same remaining tokens and the same prior
state fields, either both runs exhaust their fuel together, or both
append one identical Layer record: same name, no GDS number, and the same
space-joined expression string. -/
theorem c5_layer_surface_equiv (f : Nat) (lv nv av : String) (lc nc al ac ll : Nat)
    (r : Token) (rest : List Token) (L : List LayerDefinition) (R : List PDRCRule)
    (I E W : List String) :
    (parse_layer_definitionF f ⟨⟨.LAYER, lv, ll, lc⟩ :: ⟨.IDENTIFIER, nv, ll, nc⟩ ::
        ⟨.ASSIGN, av, al, ac⟩ :: r :: rest, 0, L, R, I, E, W⟩ = none ∧
     parse_derived_layerF f ⟨⟨.IDENTIFIER, nv, ll, nc⟩ ::
        ⟨.ASSIGN, av, al, ac⟩ :: r :: rest, 0, L, R, I, E, W⟩ = none) ∨
    (∃ parts,
      (parse_layer_definitionF f ⟨⟨.LAYER, lv, ll, lc⟩ :: ⟨.IDENTIFIER, nv, ll, nc⟩ ::
          ⟨.ASSIGN, av, al, ac⟩ :: r :: rest, 0, L, R, I, E, W⟩).map
        (fun st => st.layers) =
        some (L ++ [⟨nv, none, some (joinWords parts), ll⟩]) ∧
      (parse_derived_layerF f ⟨⟨.IDENTIFIER, nv, ll, nc⟩ ::
          ⟨.ASSIGN, av, al, ac⟩ :: r :: rest, 0, L, R, I, E, W⟩).map
        (fun st => st.layers) =
        some (L ++ [⟨nv, none, some (joinWords parts), ll⟩])) := by
  have adv01L : advanceP ⟨⟨.LAYER, lv, ll, lc⟩ :: ⟨.IDENTIFIER, nv, ll, nc⟩ ::
      ⟨.ASSIGN, av, al, ac⟩ :: r :: rest, 0, L, R, I, E, W⟩ =
      ⟨⟨.LAYER, lv, ll, lc⟩ :: ⟨.IDENTIFIER, nv, ll, nc⟩ ::
      ⟨.ASSIGN, av, al, ac⟩ :: r :: rest, 1, L, R, I, E, W⟩ :=
    adv_step _ 0 1 L R I E W (by simp only [List.length_cons]; omega) rfl
  have adv12L : advanceP ⟨⟨.LAYER, lv, ll, lc⟩ :: ⟨.IDENTIFIER, nv, ll, nc⟩ ::
      ⟨.ASSIGN, av, al, ac⟩ :: r :: rest, 1, L, R, I, E, W⟩ =
      ⟨⟨.LAYER, lv, ll, lc⟩ :: ⟨.IDENTIFIER, nv, ll, nc⟩ ::
      ⟨.ASSIGN, av, al, ac⟩ :: r :: rest, 2, L, R, I, E, W⟩ :=
    adv_step _ 1 2 L R I E W (by simp only [List.length_cons]; omega) rfl
  have adv23L : advanceP ⟨⟨.LAYER, lv, ll, lc⟩ :: ⟨.IDENTIFIER, nv, ll, nc⟩ ::
      ⟨.ASSIGN, av, al, ac⟩ :: r :: rest, 2, L, R, I, E, W⟩ =
      ⟨⟨.LAYER, lv, ll, lc⟩ :: ⟨.IDENTIFIER, nv, ll, nc⟩ ::
      ⟨.ASSIGN, av, al, ac⟩ :: r :: rest, 3, L, R, I, E, W⟩ :=
    adv_step _ 2 3 L R I E W (by simp only [List.length_cons]; omega) rfl
  have adv01D : advanceP ⟨⟨.IDENTIFIER, nv, ll, nc⟩ ::
      ⟨.ASSIGN, av, al, ac⟩ :: r :: rest, 0, L, R, I, E, W⟩ =
      ⟨⟨.IDENTIFIER, nv, ll, nc⟩ ::
      ⟨.ASSIGN, av, al, ac⟩ :: r :: rest, 1, L, R, I, E, W⟩ :=
    adv_step _ 0 1 L R I E W (by simp only [List.length_cons]; omega) rfl
  have adv12D : advanceP ⟨⟨.IDENTIFIER, nv, ll, nc⟩ ::
      ⟨.ASSIGN, av, al, ac⟩ :: r :: rest, 1, L, R, I, E, W⟩ =
      ⟨⟨.IDENTIFIER, nv, ll, nc⟩ ::
      ⟨.ASSIGN, av, al, ac⟩ :: r :: rest, 2, L, R, I, E, W⟩ :=
    adv_step _ 1 2 L R I E W (by simp only [List.length_cons]; omega) rfl
  have hd1 : parse_layer_definitionF f ⟨⟨.LAYER, lv, ll, lc⟩ :: ⟨.IDENTIFIER, nv, ll, nc⟩ ::
      ⟨.ASSIGN, av, al, ac⟩ :: r :: rest, 0, L, R, I, E, W⟩ =
      layerExprFinishF nv ll (pl_exprF f ⟨⟨.LAYER, lv, ll, lc⟩ ::
        ⟨.IDENTIFIER, nv, ll, nc⟩ :: ⟨.ASSIGN, av, al, ac⟩ :: r :: rest,
        3, L, R, I, E, W⟩ []) := by
    rw [parse_layer_def_eq f ⟨⟨.LAYER, lv, ll, lc⟩ :: ⟨.IDENTIFIER, nv, ll, nc⟩ ::
        ⟨.ASSIGN, av, al, ac⟩ :: r :: rest, 0, L, R, I, E, W⟩ ⟨.LAYER, lv, ll, lc⟩
      ⟨.IDENTIFIER, nv, ll, nc⟩ ⟨.ASSIGN, av, al, ac⟩ rfl
      (by rw [adv01L]; rfl) rfl (by rw [adv01L, adv12L]; rfl) (by simp) rfl]
    rw [adv01L, adv12L, adv23L]
    try rfl
  have hd2 : parse_derived_layerF f ⟨⟨.IDENTIFIER, nv, ll, nc⟩ ::
      ⟨.ASSIGN, av, al, ac⟩ :: r :: rest, 0, L, R, I, E, W⟩ =
      layerExprFinishF nv ll (pl_exprF f ⟨⟨.IDENTIFIER, nv, ll, nc⟩ ::
        ⟨.ASSIGN, av, al, ac⟩ :: r :: rest, 2, L, R, I, E, W⟩ []) := by
    rw [parse_derived_eq f ⟨⟨.IDENTIFIER, nv, ll, nc⟩ ::
        ⟨.ASSIGN, av, al, ac⟩ :: r :: rest, 0, L, R, I, E, W⟩
      ⟨.IDENTIFIER, nv, ll, nc⟩ ⟨.ASSIGN, av, al, ac⟩ rfl rfl (by rw [adv01D]; rfl) rfl]
    rw [adv01D, adv12D]
    try rfl
  rcases pl_exprF_bisim f (r :: rest) 0 (by simp) []
      [⟨.LAYER, lv, ll, lc⟩, ⟨.IDENTIFIER, nv, ll, nc⟩, ⟨.ASSIGN, av, al, ac⟩]
      [⟨.IDENTIFIER, nv, ll, nc⟩, ⟨.ASSIGN, av, al, ac⟩]
      L L R R I I E E W W with ⟨n1, n2⟩ | ⟨a, k2, hk2, e1, e2⟩
  · simp only [List.cons_append, List.nil_append, List.length_cons,
      List.length_nil] at n1 n2
    norm_num at n1 n2
    refine Or.inl ⟨?_, ?_⟩
    · rw [hd1, n1]
      rfl
    · rw [hd2, n2]
      rfl
  · simp only [List.cons_append, List.nil_append, List.length_cons,
      List.length_nil] at e1 e2
    norm_num at e1 e2
    refine Or.inr ⟨a, ?_, ?_⟩
    · rw [hd1, e1]
      rfl
    · rw [hd2, e2]
      rfl

/-- C6 counterexample: parsing an input whose first LAYER statement has a
valid layer name but neither a number nor an = sign afterwards appends no
Layer record for it AND records no diagnostic at all (parse_layer_definition
has no else branch for this case), while parsing continues: only the second
statement's record is produced and the error list stays empty, refuting the
claimed "at least one diagnostic". -/
theorem c6_layer_silent_cex :
    (parseSVRF 32 "LAYER M1\nLAYER OK 5\n").map
      (fun st => (st.errors, st.layers)) =
      some ([], [⟨"OK", some 5, none, 2⟩]) := by decide

/-- C6 (amended): after a LAYER keyword, a missing or non-identifier layer
name appends exactly one "Expected layer name" diagnostic and no Layer
record; but a well-formed name followed by neither a NUMBER nor an = sign
is skipped silently: no record, no diagnostic, and the parser simply
continues after the name token. -/
theorem c6_layer_diag_amended (f : Nat) (st : PState) (lt t1 : Token)
    (h0 : curTok st = some lt) (h1 : curTok (advanceP st) = some t1) :
    (t1.type ≠ .IDENTIFIER →
      parse_layer_definitionF f st =
        some { advanceP st with errors := (advanceP st).errors ++
          ["Expected layer name at line " ++ toString lt.line] }) ∧
    (∀ t2, t1.type = .IDENTIFIER →
      curTok (advanceP (advanceP st)) = some t2 →
      t2.type ≠ .NUMBER → t2.type ≠ .ASSIGN →
      parse_layer_definitionF f st = some (advanceP (advanceP st))) := by
  constructor
  · intro hne
    simp only [parse_layer_definitionF, h0, h1]
    rw [if_neg hne]
  · intro t2 hid h2 hn2 ha2
    simp only [parse_layer_definitionF, h0, h1]
    rw [if_pos hid]
    simp only [h2]
    rw [if_neg hn2, if_neg ha2]

/-- C6 witness: on the concrete input LAYER M1 (newline) the silent-skip
branch of the amended theorem applies: the statement yields no record and
no error, and the state is just advanced past the name. -/
theorem c6_layer_diag_amended_witness :
    parse_layer_definitionF 5 ⟨tokenize "LAYER M1\n", 0, [], [], [], [], []⟩ =
      some (advanceP (advanceP ⟨tokenize "LAYER M1\n", 0, [], [], [], [], []⟩)) :=
  (c6_layer_diag_amended 5 ⟨tokenize "LAYER M1\n", 0, [], [], [], [], []⟩
    ⟨.LAYER, "LAYER", 1, 1⟩ ⟨.IDENTIFIER, "M1", 1, 7⟩ (by decide) (by decide)).2
    ⟨.NEWLINE, "\n", 1, 9⟩ (by decide) (by decide) (by decide) (by decide)
